import Mathlib

/-!
Verification of the llmcord-search-engine conversation pipeline.

This file gives a shallow embedding, in Lean 4, of the core operations of the
repository — credential rotation (`src/config/api_key_manager.py`), the search
fallback orchestrator (`src/search/search_service.py`), single-URL content
fetching (`src/search/url_handler.py`), query splitting
(`src/llm/query_splitter_handler.py`), conversation-context assembly
(`src/core/message_processor.py`), response streaming
(`src/core/response_handler.py`) and node-cache maintenance
(`src/core/bot_client.py`) — and proves or refutes the specified properties
of those operations.

External effects (HTTP responses, the LLM token stream, Discord send/edit
outcomes, wall-clock throttling) are modelled as explicit inputs (oracles);
Python strings are modelled as Lean `String` (both index by code points),
Python dicts keyed by message id as association lists, and the per-node
`asyncio.Lock` state as a boolean field threaded through the state.
-/

namespace Llmcord

/-- Python `str` whitespace for `strip()`/`lstrip()` (the ASCII part;
no claim involves the further Unicode space code points). -/
def pyIsSpace (c : Char) : Bool :=
  c = ' ' || c = '\t' || c = '\n' || c = '\r' || c = '\x0b' || c = '\x0c'

/-- Python `s.strip()`. -/
def pyStrip (s : String) : String :=
  String.mk (((s.data.dropWhile pyIsSpace).reverse.dropWhile pyIsSpace).reverse)

/-- Python `s.lstrip()`. -/
def pyLStrip (s : String) : String :=
  String.mk (s.data.dropWhile pyIsSpace)

/-- `hasPrefixAux needle hay` : `hay` starts with `needle` (on char lists). -/
def hasPrefixAux : List Char → List Char → Bool
  | [], _ => true
  | _ :: _, [] => false
  | n :: ns, h :: hs => n == h && hasPrefixAux ns hs

/-- `infixAux needle hay` : `needle` occurs contiguously inside `hay`. -/
def infixAux (needle : List Char) : List Char → Bool
  | [] => hasPrefixAux needle []
  | h :: hs => hasPrefixAux needle (h :: hs) || infixAux needle hs

/-- Python's substring test `sub in s` on strings. -/
def strContains (s sub : String) : Bool :=
  infixAux sub.data s.data

/-- Python `html.escape(s)` (with `quote=True`), as used by the message
processor: replace `&`, `<`, `>`, `"` and `'` by entities, in that order. -/
def htmlEscape (s : String) : String :=
  ((((s.replace "&" "&amp;").replace "<" "&lt;").replace ">" "&gt;").replace
    "\"" "&quot;").replace "\x27" "&#x27;"

/-! ## KeyRotator — `src/config/api_key_manager.py`

`APIKeyManager` keeps, per service name, a list of credentials
(`providers_keys[provider]` or the `<service>_api_keys` attribute — merged
here into one map `keysOf`) and a cursor (`index_counters`).  Network and
locking are irrelevant to the cursor arithmetic: each call holds the
service's own lock for the whole read-advance-return, so the interleaved
execution is a sequence of atomic calls, modelled as a trace of service
names. -/

/-- `__init__` filters out blank credentials before storing a service's
list (`[key for key in api_keys if key.strip()]`). -/
def loadKeys (raw : List String) : List String :=
  raw.filter (fun k => pyStrip k ≠ "")

/-- The mutable state of `APIKeyManager`: the per-service credential lists
(immutable after `__init__`) and the per-service cursor. -/
structure KeyManagerState where
  keysOf : String → List String
  counter : String → Nat

/-- `APIKeyManager` state right after `__init__`: every cursor is `0`. -/
def initKeyManager (keysOf : String → List String) : KeyManagerState :=
  { keysOf := keysOf, counter := fun _ => 0 }

/-- `APIKeyManager.get_next_api_key` (lines 87–123): under the service's
lock, return `None` if the service has no keys; otherwise return the
credential at the current cursor and advance the cursor modulo the list
length.  (`keys[index]` is total in the source because the cursor is only
ever written as a value `< len(keys)`; `getD` with a dummy default mirrors
that.) -/
def getNextApiKey (st : KeyManagerState) (service : String) :
    Option String × KeyManagerState :=
  let keys := st.keysOf service
  if keys.isEmpty then
    (none, st)
  else
    let index := st.counter service
    let key := keys.getD index ""
    (some key,
      { st with
        counter := fun s =>
          if s = service then (index + 1) % keys.length else st.counter s })

/-- Run a trace of `get_next_api_key` calls (one service name per call) and
keep the answers returned to the calls made for `service`, in call order. -/
def keyOutputsFor (service : String) :
    KeyManagerState → List String → List (Option String)
  | _, [] => []
  | st, s :: rest =>
    let r := getNextApiKey st s
    if s = service then r.1 :: keyOutputsFor service r.2 rest
    else keyOutputsFor service r.2 rest

/-- Number of calls made for `service` in a trace. -/
def countCalls (service : String) : List String → Nat
  | [] => 0
  | s :: rest => (if s = service then 1 else 0) + countCalls service rest

theorem getNextApiKey_keysOf (st : KeyManagerState) (s : String) :
    (getNextApiKey st s).2.keysOf = st.keysOf := by
  unfold getNextApiKey
  by_cases h : (st.keysOf s).isEmpty <;> simp [h]

theorem getNextApiKey_counter_other (st : KeyManagerState) (s t : String)
    (h : t ≠ s) : (getNextApiKey st s).2.counter t = st.counter t := by
  unfold getNextApiKey
  by_cases he : (st.keysOf s).isEmpty <;> simp [he, h]

/-- Rotation invariant: starting with cursor `c < N` for `service`, the
answers handed to the next `m` calls for `service` are the credentials at
positions `c, c+1, …` modulo `N`, no matter which other services'
calls are interleaved. -/
theorem keyOutputsFor_rotation (service : String) :
    ∀ (trace : List String) (st : KeyManagerState),
      0 < (st.keysOf service).length →
      st.counter service < (st.keysOf service).length →
      keyOutputsFor service st trace =
        (List.range (countCalls service trace)).map
          (fun j => some ((st.keysOf service).getD
            ((st.counter service + j) % (st.keysOf service).length) "")) := by
  intro trace
  induction trace with
  | nil =>
    intro st _ _
    simp [keyOutputsFor, countCalls]
  | cons s rest ih =>
    intro st hN hc
    have hkeys : (getNextApiKey st s).2.keysOf = st.keysOf :=
      getNextApiKey_keysOf st s
    by_cases hs : s = service
    · subst hs
      have hne : (st.keysOf s).isEmpty = false := by
        cases h : st.keysOf s with
        | nil => rw [h] at hN; simp at hN
        | cons a l => rfl
      have hcnt : (getNextApiKey st s).2.counter s =
          (st.counter s + 1) % (st.keysOf s).length := by
        simp [getNextApiKey, hne]
      have hout : (getNextApiKey st s).1 =
          some ((st.keysOf s).getD (st.counter s) "") := by
        simp [getNextApiKey, hne]
      have ih2 := ih (getNextApiKey st s).2
        (by rw [hkeys]; exact hN)
        (by rw [hkeys, hcnt]; exact Nat.mod_lt _ hN)
      rw [keyOutputsFor, if_pos rfl, ih2, hkeys, hcnt, hout]
      have hm : countCalls s (s :: rest) = countCalls s rest + 1 := by
        simp [countCalls, Nat.add_comm]
      rw [hm, List.range_succ_eq_map]
      simp only [List.map_cons, List.map_map]
      congr 1
      · simp [Nat.mod_eq_of_lt hc]
      · apply List.map_congr_left
        intro j _
        simp only [Function.comp_apply]
        congr 2
        rw [Nat.mod_add_mod]
        congr 1
        omega
    · have hcnt : (getNextApiKey st s).2.counter service = st.counter service :=
        getNextApiKey_counter_other st s service (fun h => hs h.symm)
      have ih2 := ih (getNextApiKey st s).2
        (by rw [hkeys]; exact hN)
        (by rw [hkeys, hcnt]; exact hc)
      rw [keyOutputsFor, if_neg hs, ih2, hkeys, hcnt]
      simp [countCalls, hs]

theorem rotation_double_cycle (ks : List String) (_hN : 0 < ks.length) :
    (List.range (2 * ks.length)).map
      (fun j => some (ks.getD (j % ks.length) "")) = (ks ++ ks).map some := by
  apply List.ext_getElem
  · simp; omega
  · intro i h1 h2
    simp only [List.getElem_map, List.getElem_range]
    have h2N : i < 2 * ks.length := by simpa using h1
    by_cases hi : i < ks.length
    · rw [Nat.mod_eq_of_lt hi, List.getD_eq_getElem ks "" hi]
      rw [List.getElem_append_left]
    · have hlt : i - ks.length < ks.length := by omega
      have hmod : i % ks.length = i - ks.length := by
        conv_lhs => rw [show i = ks.length + (i - ks.length) by omega]
        rw [Nat.add_mod_left, Nat.mod_eq_of_lt hlt]
      rw [hmod, List.getD_eq_getElem ks "" hlt]
      congr 1
      rw [List.getElem_append_right (by omega)]

/-- C7. For a service `S` loaded with `N ≥ 1` credentials, a call trace that
performs exactly `2N` calls to `get_next_api_key(S)` — with arbitrary calls
for other services interleaved — hands the `S` callers each credential
exactly twice, in the configured order: the `S` answers are exactly
`keys ++ keys`.  Each call returns the credential at the pre-advance cursor
and advances the cursor modulo `N`, and calls for other services leave `S`'s
cursor untouched. -/
theorem apiKeyManager_round_robin (keysOf : String → List String)
    (service : String) (trace : List String)
    (hN : 0 < (keysOf service).length)
    (hcalls : countCalls service trace = 2 * (keysOf service).length) :
    keyOutputsFor service (initKeyManager keysOf) trace =
      ((keysOf service) ++ (keysOf service)).map some := by
  have h := keyOutputsFor_rotation service trace (initKeyManager keysOf)
    (by simpa [initKeyManager] using hN)
    (by simpa [initKeyManager] using hN)
  rw [h]
  simp only [initKeyManager, hcalls]
  simpa using rotation_double_cycle (keysOf service) hN

/-- Closed witness for C7: two credentials for service `"serper"`, four
calls for it interleaved with calls for `"openai"`, yielding the two keys
twice over in order. -/
theorem apiKeyManager_round_robin_witness :
    keyOutputsFor "serper"
      (initKeyManager (fun s => if s = "serper" then ["k1", "k2"] else ["p1"]))
      ["serper", "openai", "serper", "serper", "openai", "serper"] =
      [some "k1", some "k2", some "k1", some "k2"] := by
  have h := apiKeyManager_round_robin
    (fun s => if s = "serper" then ["k1", "k2"] else ["p1"]) "serper"
    ["serper", "openai", "serper", "serper", "openai", "serper"]
    (by decide) (by decide)
  simpa using h

/-! ## SearchOrchestrator — `src/search/search_service.py`

`SearchService.search` (lines 272–318) calls `search_with_searxng`, then
`search_with_serper`, then `search_with_bing`.  Each backend call is a
network operation returning `(results, error)` where exactly one of the two
is meaningful; the backends' outcomes are inputs here.  `search` returns at
the first backend whose `results` is truthy (a non-empty list) and appends
each truthy `error` string along the way. -/

structure SearchResult where
  url : String
  title : String
  snippet : String
deriving DecidableEq

/-- What one `search_with_*` call returns: an optional result list and an
optional error string (`(None, err)` on failure, `(results, None)` on
success — Serper and Bing may return `([], None)`). -/
abbrev BackendReturn := Option (List SearchResult) × Option String

/-- Python truthiness of `results` in `if results:`. -/
def backendProduced (r : BackendReturn) : Bool :=
  match r.1 with
  | some l => !l.isEmpty
  | none => false

/-- The result list a truthy backend return carries. -/
def backendResults (r : BackendReturn) : List SearchResult :=
  r.1.getD []

/-- The error strings `if error: errors.append(error)` appends for one
backend return (Python truthiness: `None` and `""` append nothing). -/
def errList (r : BackendReturn) : List String :=
  match r.2 with
  | some e => if e = "" then [] else [e]
  | none => []

/-- `SearchService.search`: SearxNG, then Serper, then Bing, stopping at the
first truthy result list; accumulated errors are returned in every case. -/
def searchFallback (r1 r2 r3 : BackendReturn) :
    List SearchResult × List String :=
  if backendProduced r1 then (backendResults r1, [])
  else
    let errors1 := errList r1
    if backendProduced r2 then (backendResults r2, errors1)
    else
      let errors2 := errors1 ++ errList r2
      if backendProduced r3 then (backendResults r3, errors2)
      else ([], errors2 ++ errList r3)

theorem backendProduced_ne_nil (r : BackendReturn)
    (h : backendProduced r) : backendResults r ≠ [] := by
  unfold backendProduced backendResults at *
  match hr : r.1 with
  | some l => rw [hr] at h; simpa using h
  | none => rw [hr] at h; simp at h

/-- C5. The fallback composition of `SearchService.search`: the returned
result list is non-empty iff some backend produced at least one result;
the backends are consulted in the fixed order SearxNG, Serper, Bing,
stopping at the first producer, whose results are returned together with
the errors of the backends attempted before it; and only when every
backend fails to produce does the call return the empty list together with
the accumulated errors of all three attempts. -/
theorem searchService_fallback (r1 r2 r3 : BackendReturn) :
    ((searchFallback r1 r2 r3).1 ≠ [] ↔
      (backendProduced r1 ∨ backendProduced r2 ∨ backendProduced r3))
    ∧ (backendProduced r1 →
        searchFallback r1 r2 r3 = (backendResults r1, []))
    ∧ (¬ backendProduced r1 → backendProduced r2 →
        searchFallback r1 r2 r3 = (backendResults r2, errList r1))
    ∧ (¬ backendProduced r1 → ¬ backendProduced r2 → backendProduced r3 →
        searchFallback r1 r2 r3 =
          (backendResults r3, errList r1 ++ errList r2))
    ∧ (¬ backendProduced r1 → ¬ backendProduced r2 → ¬ backendProduced r3 →
        searchFallback r1 r2 r3 =
          ([], errList r1 ++ errList r2 ++ errList r3)) := by
  by_cases h1 : backendProduced r1
  · refine ⟨?_, ?_, ?_, ?_, ?_⟩ <;>
      simp [searchFallback, h1, backendProduced_ne_nil r1 h1]
  · by_cases h2 : backendProduced r2
    · refine ⟨?_, ?_, ?_, ?_, ?_⟩ <;>
        simp [searchFallback, h1, h2, backendProduced_ne_nil r2 h2]
    · by_cases h3 : backendProduced r3
      · refine ⟨?_, ?_, ?_, ?_, ?_⟩ <;>
          simp [searchFallback, h1, h2, h3, backendProduced_ne_nil r3 h3]
      · refine ⟨?_, ?_, ?_, ?_, ?_⟩ <;>
          simp [searchFallback, h1, h2, h3, List.append_assoc]

/-- Closed witness for C5: SearxNG errors, Serper returns zero results with
no error, Bing produces one hit — `search` returns Bing's hit alongside the
accumulated SearxNG error. -/
theorem searchService_fallback_witness :
    searchFallback (none, some "SearxNG error: boom") (some [], none)
      (some [⟨"https://x", "t", "s"⟩], none) =
      ([⟨"https://x", "t", "s"⟩], ["SearxNG error: boom"]) := by
  have h := (searchService_fallback (none, some "SearxNG error: boom")
    (some [], none) (some [⟨"https://x", "t", "s"⟩], none)).2.2.2.1
    (by decide) (by decide) (by decide)
  simpa [backendResults, errList] using h

/-! ## ContentFetcher — `src/search/url_handler.py`

`fetch_single_url_content` (lines 102–167) dispatches on the URL: YouTube
and Reddit go to their providers, anything else first tries the Jina
readability proxy and then a direct fetch branching on content type.  The
network outcomes are inputs: `jina = some body` is a successful proxy
response, `jina = none` covers both `httpx.HTTPError` and any other
exception (both fall through to the direct fetch); `direct` is the direct
response `(Content-Type, text)` or the exception message; `pdfExtract` /
`htmlExtract` are the raw PyPDF2 / BeautifulSoup extraction outcomes fed to
`parse_pdf_content` / `parse_html_content`. -/

structure UrlFetchEnv where
  youtubeText : String
  redditText : String
  jina : Option String
  direct : Except String (String × String)
  pdfExtract : Except String String
  htmlExtract : Except String String

/-- `parse_pdf_content` (lines 76–99): concatenated page text (already
joined, an input here), the "no extractable text" placeholder when empty,
truncated to 20,000; an exception becomes an untruncated error string. -/
def parsePdfContent (outcome : Except String String) : String :=
  match outcome with
  | .ok raw =>
    (if raw = "" then "No extractable text found in PDF." else raw).take 20000
  | .error e => "Error extracting text from PDF: " ++ e

/-- `parse_html_content` (lines 45–73): the soup-extracted visible text
truncated to 20,000; an exception becomes an untruncated error string. -/
def parseHtmlContent (outcome : Except String String) : String :=
  match outcome with
  | .ok raw => raw.take 20000
  | .error e => "Error extracting text from HTML: " ++ e

/-- `fetch_single_url_content` (lines 102–167). -/
def fetchSingleUrlContent (url : String) (env : UrlFetchEnv) : String :=
  if strContains url "youtube.com" || strContains url "youtu.be" then
    env.youtubeText.take 20000
  else if strContains url "reddit.com" || strContains url "redd.it" then
    env.redditText.take 20000
  else
    match env.jina with
    | some body => "__JINA_SUCCESS__\n" ++ ((pyStrip body).take 20000)
    | none =>
      match env.direct with
      | .ok (contentType, body) =>
        if strContains contentType "application/pdf" then
          "PDF Content (fallback):\n" ++ parsePdfContent env.pdfExtract
        else if strContains contentType "text/html" then
          "Extracted Content (BeautifulSoup fallback):\n" ++
            parseHtmlContent env.htmlExtract
        else
          body.take 20000
      | .error e => "Error fetching content from " ++ url ++ ": " ++ e

/-- C6 fails on the code: the Jina, PDF, HTML and error branches prepend a
prefix (or interpolate the URL and exception text) *after* the 20,000-char
truncation, so the returned string can exceed the cap — here the
error branch returns 20,038 characters for a 20,000-character exception
message, contradicting the function's own docstring ("Plain text content
string, truncated to 20,000 characters"). -/
theorem fetchSingleUrlContent_exceeds_cap :
    (fetchSingleUrlContent "http://x"
      { youtubeText := "", redditText := "", jina := none,
        direct := Except.error (String.mk (List.replicate 20000 'a')),
        pdfExtract := Except.ok "", htmlExtract := Except.ok "" }).length =
      20038 ∧
    ¬ (fetchSingleUrlContent "http://x"
      { youtubeText := "", redditText := "", jina := none,
        direct := Except.error (String.mk (List.replicate 20000 'a')),
        pdfExtract := Except.ok "", htmlExtract := Except.ok "" }).length ≤
      20000 := by
  have heq : fetchSingleUrlContent "http://x"
      { youtubeText := "", redditText := "", jina := none,
        direct := Except.error (String.mk (List.replicate 20000 'a')),
        pdfExtract := Except.ok "", htmlExtract := Except.ok "" } =
      "Error fetching content from " ++ "http://x" ++ ": " ++
        String.mk (List.replicate 20000 'a') := rfl
  rw [heq]
  have hmk : ∀ l : List Char, (String.mk l).length = l.length := fun _ => rfl
  simp only [String.length_append, hmk, List.length_replicate]
  constructor
  · norm_num
  · norm_num

/-! ## QueryPlanner query split — `src/llm/query_splitter_handler.py`

`split_query` calls the model (with up to five retries, rotating the
credential) and, once it has a response, strips it and hands it to
`_parse_query_splitter_response` (lines 203–249): a regex `\[.*\]`
(DOTALL) pulls the bracketed candidate out of the response, `json.loads`
parses it, and the result is returned iff it is a list whose members are
all strings; in every other case — no bracketed substring, a JSON decode
error, a non-list value, a list with a non-string member, or any other
exception — the single-element list holding the original query comes back.
The JSON grammar of `json.loads` (including Python's `NaN`/`Infinity`
extensions and its rejection of unescaped control characters) is embedded
below as a total, fuel-bounded recursive-descent parser, so "never raises"
holds by construction. -/

inductive Json where
  | null
  | bool (b : Bool)
  | num (lexeme : String)
  | str (s : String)
  | arr (elems : List Json)
  | obj (fields : List (String × Json))

/-- JSON whitespace: space, tab, newline, carriage return. -/
def skipWs : List Char → List Char
  | [] => []
  | c :: cs =>
    if c = ' ' ∨ c = '\t' ∨ c = '\n' ∨ c = '\r' then skipWs cs else c :: cs

def isHexDig (c : Char) : Bool :=
  c.isDigit || ('a' ≤ c && c ≤ 'f') || ('A' ≤ c && c ≤ 'F')

def hexVal (c : Char) : Nat :=
  if c.isDigit then c.toNat - '0'.toNat
  else if 'a' ≤ c ∧ c ≤ 'f' then c.toNat - 'a'.toNat + 10
  else c.toNat - 'A'.toNat + 10

/-- Body of a JSON string literal (opening quote already consumed),
with the escape sequences `json.loads` accepts and its strict rejection of
unescaped control characters.  (`\uXXXX` surrogate halves map through
`Char.ofNat`, a corner none of the claims touch.) -/
def parseStringBody : Nat → List Char → List Char → Option (String × List Char)
  | 0, _, _ => none
  | fuel + 1, acc, cs =>
    match cs with
    | [] => none
    | c :: rest =>
      if c = '"' then some (String.mk acc.reverse, rest)
      else if c = '\\' then
        match rest with
        | [] => none
        | e :: rest2 =>
          if e = '"' then parseStringBody fuel ('"' :: acc) rest2
          else if e = '\\' then parseStringBody fuel ('\\' :: acc) rest2
          else if e = '/' then parseStringBody fuel ('/' :: acc) rest2
          else if e = 'b' then parseStringBody fuel ('\x08' :: acc) rest2
          else if e = 'f' then parseStringBody fuel ('\x0C' :: acc) rest2
          else if e = 'n' then parseStringBody fuel ('\n' :: acc) rest2
          else if e = 'r' then parseStringBody fuel ('\r' :: acc) rest2
          else if e = 't' then parseStringBody fuel ('\t' :: acc) rest2
          else if e = 'u' then
            match rest2 with
            | h1 :: h2 :: h3 :: h4 :: rest3 =>
              if isHexDig h1 ∧ isHexDig h2 ∧ isHexDig h3 ∧ isHexDig h4 then
                parseStringBody fuel
                  (Char.ofNat
                    (((hexVal h1 * 16 + hexVal h2) * 16 + hexVal h3) * 16 +
                      hexVal h4) :: acc) rest3
              else none
            | _ => none
          else none
      else if c.toNat < 32 then none
      else parseStringBody fuel (c :: acc) rest

/-- Fraction part of a JSON number. -/
def lexFrac : List Char → Option (List Char × List Char)
  | '.' :: r =>
    let ds := r.takeWhile Char.isDigit
    if ds.isEmpty then none else some ('.' :: ds, r.dropWhile Char.isDigit)
  | cs => some ([], cs)

/-- Exponent part of a JSON number. -/
def lexExp : List Char → Option (List Char × List Char)
  | [] => some ([], [])
  | c :: r =>
    if c = 'e' ∨ c = 'E' then
      let sgn : List Char × List Char :=
        match r with
        | s :: r3 => if s = '+' ∨ s = '-' then ([s], r3) else ([], s :: r3)
        | [] => ([], [])
      let ds := sgn.2.takeWhile Char.isDigit
      if ds.isEmpty then none
      else some (c :: (sgn.1 ++ ds), sgn.2.dropWhile Char.isDigit)
    else some ([], c :: r)

/-- JSON number lexeme (kept as text — no claim needs the value),
rejecting leading zeros as `json.loads` does. -/
def parseNumberLex (cs : List Char) : Option (String × List Char) :=
  let sign : List Char × List Char :=
    match cs with
    | '-' :: r => (['-'], r)
    | _ => ([], cs)
  let ip := sign.2.takeWhile Char.isDigit
  let r1 := sign.2.dropWhile Char.isDigit
  if ip.isEmpty then none
  else if 1 < ip.length ∧ ip.headD ' ' = '0' then none
  else
    match lexFrac r1 with
    | none => none
    | some (fp, r2) =>
      match lexExp r2 with
      | none => none
      | some (ep, r3) => some (String.mk (sign.1 ++ ip ++ fp ++ ep), r3)

mutual

/-- One JSON value, as `json.loads` reads it (with Python's
`NaN` / `Infinity` / `-Infinity` extensions). -/
def parseValue : Nat → List Char → Option (Json × List Char)
  | 0, _ => none
  | fuel + 1, cs =>
    match skipWs cs with
    | [] => none
    | c :: rest =>
      if c = '\x7b' then
        match skipWs rest with
        | '\x7d' :: r2 => some (.obj [], r2)
        | cs2 => parseMembers fuel cs2 []
      else if c = '[' then
        match skipWs rest with
        | ']' :: r2 => some (.arr [], r2)
        | cs2 => parseElems fuel cs2 []
      else if c = '"' then
        match parseStringBody (rest.length + 1) [] rest with
        | some (s, r2) => some (.str s, r2)
        | none => none
      else if c = 't' then
        if hasPrefixAux ['r', 'u', 'e'] rest then some (.bool true, rest.drop 3)
        else none
      else if c = 'f' then
        if hasPrefixAux ['a', 'l', 's', 'e'] rest then
          some (.bool false, rest.drop 4)
        else none
      else if c = 'n' then
        if hasPrefixAux ['u', 'l', 'l'] rest then some (.null, rest.drop 3)
        else none
      else if c = 'N' then
        if hasPrefixAux ['a', 'N'] rest then some (.num "NaN", rest.drop 2)
        else none
      else if c = 'I' then
        if hasPrefixAux "nfinity".data rest then
          some (.num "Infinity", rest.drop 7)
        else none
      else if c = '-' ∧ hasPrefixAux "Infinity".data rest then
        some (.num "-Infinity", rest.drop 8)
      else
        match parseNumberLex (c :: rest) with
        | some (lx, r2) => some (.num lx, r2)
        | none => none

/-- Elements of a non-empty JSON array, after the opening bracket. -/
def parseElems : Nat → List Char → List Json → Option (Json × List Char)
  | 0, _, _ => none
  | fuel + 1, cs, acc =>
    match parseValue fuel cs with
    | none => none
    | some (v, r) =>
      match skipWs r with
      | ',' :: r2 => parseElems fuel r2 (v :: acc)
      | ']' :: r2 => some (.arr (v :: acc).reverse, r2)
      | _ => none

/-- Members of a non-empty JSON object, after the opening brace. -/
def parseMembers : Nat → List Char → List (String × Json) →
    Option (Json × List Char)
  | 0, _, _ => none
  | fuel + 1, cs, acc =>
    match skipWs cs with
    | '"' :: rest =>
      match parseStringBody (rest.length + 1) [] rest with
      | none => none
      | some (k, r) =>
        match skipWs r with
        | ':' :: r2 =>
          match parseValue fuel r2 with
          | none => none
          | some (v, r3) =>
            match skipWs r3 with
            | ',' :: r4 => parseMembers fuel r4 ((k, v) :: acc)
            | '\x7d' :: r4 => some (.obj ((k, v) :: acc).reverse, r4)
            | _ => none
        | _ => none
    | _ => none

end

/-- Python `json.loads`: one value, then nothing but whitespace. -/
def jsonLoads (s : String) : Option Json :=
  match parseValue (2 * s.data.length + 8) s.data with
  | some (v, rest) => if (skipWs rest).isEmpty then some v else none
  | none => none

/-- `re.search(r'\[.*\]', content, re.DOTALL)`: the match, when it exists,
runs from the first `[` that has some `]` after it (equivalently, the first
`[` before the last `]`) to the last `]` of the whole text. -/
def extractJsonCandidate (content : String) : Option String :=
  let cs := content.data
  match (cs.reverse.findIdx? (fun c => c = ']')).map
      (fun k => cs.length - 1 - k) with
  | none => none
  | some j =>
    match (cs.take j).findIdx? (fun c => c = '[') with
    | none => none
    | some i => some (String.mk ((cs.drop i).take (j - i + 1)))

/-- `isinstance(queries, list) and all(isinstance(q, str) for q in queries)`:
the parsed value as a list of strings, if it is one. -/
def jsonStringElems : List Json → Option (List String)
  | [] => some []
  | Json.str s :: rest => (jsonStringElems rest).map (fun l => s :: l)
  | _ => none

def toStringArray : Json → Option (List String)
  | Json.arr xs => jsonStringElems xs
  | _ => none

/-- `_parse_query_splitter_response` (lines 203–249). -/
def parseQuerySplitterResponse (content originalQuery : String) :
    List String :=
  match extractJsonCandidate content with
  | none => [originalQuery]
  | some jsonContent =>
    match jsonLoads jsonContent with
    | none => [originalQuery]
    | some j =>
      match toStringArray j with
      | some queries => queries
      | none => [originalQuery]

/-- The composition "the response holds a parseable JSON array of
strings": bracketed candidate extracted, decoded, and of list-of-strings
shape. -/
def parsedStringArray (content : String) : Option (List String) :=
  (extractJsonCandidate content).bind
    (fun jc => (jsonLoads jc).bind toStringArray)

/-- `split_query` after the model call: `response = None` (all five
attempts raised) falls back to `[query]`; otherwise the stripped response
content goes through `_parse_query_splitter_response`. -/
def splitQueryFromResponse (response : Option String) (query : String) :
    List String :=
  match response with
  | none => [query]
  | some content => parseQuerySplitterResponse (pyStrip content) query

/-- `_parse_query_splitter_response` returns the parsed list of strings
when there is one and the original query in every other case. -/
theorem parseQuerySplitterResponse_eq (c q : String) :
    parseQuerySplitterResponse c q = (parsedStringArray c).getD [q] := by
  unfold parseQuerySplitterResponse parsedStringArray
  cases extractJsonCandidate c with
  | none => rfl
  | some jc =>
    show (match jsonLoads jc with
          | none => [q]
          | some j =>
            match toStringArray j with
            | some queries => queries
            | none => [q]) = ((jsonLoads jc).bind toStringArray).getD [q]
    cases jsonLoads jc with
    | none => rfl
    | some j =>
      show (match toStringArray j with
            | some queries => queries
            | none => [q]) = (toStringArray j).getD [q]
      cases toStringArray j with
      | none => rfl
      | some qs => rfl

/-- C8. Whenever the model's response (after stripping) does not contain a
parseable JSON array of strings — no bracketed substring, malformed JSON,
or a decoded value that is not a list of strings — `split_query` returns
the single-element list holding the original query.  The embedding is a
total function, so no exception can escape. -/
theorem splitQuery_fail_safe (content query : String)
    (h : parsedStringArray (pyStrip content) = none) :
    splitQueryFromResponse (some content) query = [query] := by
  have hrw : splitQueryFromResponse (some content) query =
      parseQuerySplitterResponse (pyStrip content) query := rfl
  rw [hrw, parseQuerySplitterResponse_eq, h]
  rfl

/-- Closed witness for C8: a response with no JSON array at all. -/
theorem splitQuery_fail_safe_witness :
    splitQueryFromResponse (some "Sorry, I cannot help with that.")
      "best budget earbuds" = ["best budget earbuds"] :=
  splitQuery_fail_safe "Sorry, I cannot help with that."
    "best budget earbuds" rfl

/-- C10. Whenever the stripped response does contain a parseable JSON array
of strings, `split_query` returns exactly the parsed list, with no further
validation — in particular the response `"[]"` yields `[]`, which neither
is non-empty nor contains the original query. -/
theorem splitQuery_passthrough (content query : String) (l : List String)
    (h : parsedStringArray (pyStrip content) = some l) :
    splitQueryFromResponse (some content) query = l := by
  have hrw : splitQueryFromResponse (some content) query =
      parseQuerySplitterResponse (pyStrip content) query := rfl
  rw [hrw, parseQuerySplitterResponse_eq, h]
  rfl

/-- Closed witness for C10: response `"[]"` makes `split_query` return the
empty list, dropping the original query. -/
theorem splitQuery_passthrough_witness :
    splitQueryFromResponse (some "[]") "compare a and b" = [] :=
  splitQuery_passthrough "[]" "compare a and b" [] rfl

/-! ## Node-cache maintenance — `src/core/bot_client.py`

`_manage_message_cache` (lines 641–657): when the node dict holds more
than `MAX_MESSAGE_NODES = 100` entries, iterate over the sorted keys'
first `num_nodes - 100` entries and, for each, `async with` that node's
own lock, pop the entry.  The dict is an association list with distinct
keys; lock activity is recorded as an event trace so the "removal happens
while the victim's mutex is held" discipline is provable. -/

/-- The slice of `MsgNode` state the claims touch: the resolved text and
the `asyncio.Lock` held-state. -/
structure MsgNode where
  text : Option String := none
  locked : Bool := false
deriving DecidableEq

/-- `MAX_MESSAGE_NODES` from `src/core/constants.py`. -/
def MAX_MESSAGE_NODES : Nat := 100

inductive LockEv where
  | acquire (id : Nat)
  | removeNode (id : Nat)
  | release (id : Nat)
deriving DecidableEq

/-- The eviction loop body: `async with self.msg_nodes.setdefault(msg_id,
MsgNode()).lock: self.msg_nodes.pop(msg_id, None)`, once per victim id, in
victim order. -/
def evictLoop : List Nat → List (Nat × MsgNode) →
    List (Nat × MsgNode) × List LockEv
  | [], cache => (cache, [])
  | i :: rest, cache =>
    let cache2 := cache.filter (fun e => e.1 ≠ i)
    let r := evictLoop rest cache2
    (r.1, LockEv.acquire i :: LockEv.removeNode i :: LockEv.release i :: r.2)

/-- `_manage_message_cache`: prune the `num_nodes - 100` smallest keys when
the cache holds more than 100 nodes. -/
def manageMessageCache (cache : List (Nat × MsgNode)) :
    List (Nat × MsgNode) × List LockEv :=
  let numNodes := cache.length
  if numNodes > MAX_MESSAGE_NODES then
    evictLoop
      (((cache.map Prod.fst).mergeSort (fun a b => a ≤ b)).take
        (numNodes - MAX_MESSAGE_NODES))
      cache
  else (cache, [])

/-- `removesUnderLockAux held tr` : every `removeNode i` in `tr` happens
while `i` is in the held-lock multiset. -/
def removesUnderLockAux : List Nat → List LockEv → Bool
  | _, [] => true
  | held, LockEv.acquire i :: r => removesUnderLockAux (i :: held) r
  | held, LockEv.release i :: r => removesUnderLockAux (held.erase i) r
  | held, LockEv.removeNode i :: r =>
    held.contains i && removesUnderLockAux held r

def removesUnderLock (tr : List LockEv) : Bool :=
  removesUnderLockAux [] tr

theorem evictLoop_fst (vs : List Nat) :
    ∀ cache : List (Nat × MsgNode),
      (evictLoop vs cache).1 =
        cache.filter (fun e => decide (e.1 ∉ vs)) := by
  induction vs with
  | nil => intro cache; simp [evictLoop]
  | cons i rest ih =>
    intro cache
    rw [evictLoop]
    simp only
    rw [ih]
    rw [List.filter_filter]
    apply List.filter_congr
    intro e _
    by_cases h1 : e.1 = i <;> by_cases h2 : e.1 ∈ rest <;>
      simp [h1, h2]

theorem evictLoop_trace (vs : List Nat) :
    ∀ cache : List (Nat × MsgNode),
      (evictLoop vs cache).2 =
        vs.flatMap
          (fun i => [LockEv.acquire i, LockEv.removeNode i, LockEv.release i]) := by
  induction vs with
  | nil => intro cache; simp [evictLoop]
  | cons i rest ih =>
    intro cache
    rw [evictLoop]
    simp [ih]

theorem removesUnderLock_triples (vs : List Nat) :
    removesUnderLock
      (vs.flatMap
        (fun i => [LockEv.acquire i, LockEv.removeNode i, LockEv.release i])) =
      true := by
  have haux : ∀ (l : List Nat) (held : List Nat),
      removesUnderLockAux held
        (l.flatMap
          (fun i =>
            [LockEv.acquire i, LockEv.removeNode i, LockEv.release i])) =
        true := by
    intro l
    induction l with
    | nil => intro held; rfl
    | cons i rest ih =>
      intro held
      simp only [List.flatMap_cons, List.cons_append, List.nil_append,
        removesUnderLockAux]
      have : (i :: held).contains i = true := by simp
      rw [this]
      simp only [Bool.true_and]
      have herase : (i :: held).erase i = held := by simp
      rw [herase]
      exact ih held
  exact haux vs []

theorem length_filter_key (cache : List (Nat × MsgNode)) (p : Nat → Bool) :
    (cache.filter (fun e => p e.1)).length =
      ((cache.map Prod.fst).filter p).length := by
  induction cache with
  | nil => simp
  | cons e r ih =>
    by_cases h : p e.1 <;> simp [h, ih]

/-- C9. When `_manage_message_cache` runs on a cache of more than 100
nodes (with distinct message ids, as a Python dict guarantees), it keeps
exactly 100 entries, every kept entry is an entry of the input cache,
every other entry is removed, every removed id is smaller than every kept
id (oldest-first eviction), and every removal event in the lock trace
happens while the victim node's own mutex is held. -/
theorem manageMessageCache_spec (cache : List (Nat × MsgNode))
    (hnd : (cache.map Prod.fst).Nodup)
    (hlen : MAX_MESSAGE_NODES < cache.length) :
    (manageMessageCache cache).1.length = MAX_MESSAGE_NODES
    ∧ (∀ e ∈ (manageMessageCache cache).1, e ∈ cache)
    ∧ (∀ e ∈ cache, e ∉ (manageMessageCache cache).1 →
        LockEv.removeNode e.1 ∈ (manageMessageCache cache).2)
    ∧ (∀ e ∈ cache, e ∉ (manageMessageCache cache).1 →
        ∀ f ∈ (manageMessageCache cache).1, e.1 < f.1)
    ∧ removesUnderLock (manageMessageCache cache).2 = true := by
  have hif : manageMessageCache cache =
      evictLoop
        (((cache.map Prod.fst).mergeSort (fun a b => a ≤ b)).take
          (cache.length - MAX_MESSAGE_NODES))
        cache := by
    unfold manageMessageCache
    rw [if_pos hlen]
  set ids := cache.map Prod.fst with hids
  set sorted := ids.mergeSort (fun a b => a ≤ b) with hsorteddef
  set k := cache.length - MAX_MESSAGE_NODES with hk
  set victims := sorted.take k with hvict
  have hperm : sorted.Perm ids := List.mergeSort_perm ids _
  have hsortednd : sorted.Nodup := (hperm.nodup_iff).mpr hnd
  have hpair : List.Pairwise (fun a b : Nat => a ≤ b) sorted := by
    have h := @List.sorted_mergeSort Nat (fun a b : Nat => decide (a ≤ b))
      (fun a b c hab hbc => by
        simp only [decide_eq_true_eq] at *; omega)
      (fun a b => by
        simp only [Bool.or_eq_true, decide_eq_true_eq]; omega)
      ids
    refine h.imp ?_
    intro a b hab
    simpa using hab
  have hsplit : victims ++ sorted.drop k = sorted := List.take_append_drop k sorted
  have hfst : (manageMessageCache cache).1 =
      cache.filter (fun e => decide (e.1 ∉ victims)) := by
    rw [hif, evictLoop_fst]
  have htrace : (manageMessageCache cache).2 =
      victims.flatMap
        (fun i => [LockEv.acquire i, LockEv.removeNode i, LockEv.release i]) := by
    rw [hif, evictLoop_trace]
  have hlensorted : sorted.length = cache.length := by
    rw [hsorteddef, List.length_mergeSort, hids, List.length_map]
  have hdisj : ∀ a ∈ victims, ∀ b ∈ sorted.drop k, a ≠ b := by
    have h := hsortednd
    rw [← hsplit] at h
    rw [List.nodup_append] at h
    intro a ha b hb hab
    exact h.2.2 ha (hab ▸ hb)
  have hlt : ∀ a ∈ victims, ∀ b ∈ sorted.drop k, a < b := by
    have h := hpair
    rw [← hsplit, List.pairwise_append] at h
    intro a ha b hb
    exact lt_of_le_of_ne (h.2.2 a ha b hb) (hdisj a ha b hb)
  have hkeptid : ∀ f ∈ (manageMessageCache cache).1, f.1 ∈ sorted.drop k := by
    intro f hf
    rw [hfst] at hf
    have hmemc : f ∈ cache := List.mem_of_mem_filter hf
    have hnv : f.1 ∉ victims := by
      have := List.of_mem_filter hf
      simpa using this
    have hmemids : f.1 ∈ ids := by
      rw [hids]
      exact List.mem_map_of_mem Prod.fst hmemc
    have hmemsorted : f.1 ∈ sorted := hperm.mem_iff.mpr hmemids
    rw [← hsplit, List.mem_append] at hmemsorted
    cases hmemsorted with
    | inl h => exact absurd h hnv
    | inr h => exact h
  refine ⟨?_, ?_, ?_, ?_, ?_⟩
  · rw [hfst, length_filter_key cache (fun i => decide (i ∉ victims))]
    have hpermlen :
        (ids.filter (fun i => decide (i ∉ victims))).length =
          (sorted.filter (fun i => decide (i ∉ victims))).length :=
      (hperm.filter _).length_eq.symm
    rw [← hids, hpermlen, ← hsplit, List.filter_append]
    have hv0 : victims.filter (fun i => decide (i ∉ victims)) = [] := by
      apply List.filter_eq_nil_iff.mpr
      intro a ha
      simp [ha]
    have hkeep : (sorted.drop k).filter (fun i => decide (i ∉ victims)) =
        sorted.drop k := by
      apply List.filter_eq_self.mpr
      intro a ha
      have : a ∉ victims := fun hmem => hdisj a hmem a ha rfl
      simp [this]
    rw [hv0, hkeep, List.nil_append, List.length_drop, hlensorted]
    omega
  · intro e he
    rw [hfst] at he
    exact List.mem_of_mem_filter he
  · intro e he hnot
    rw [hfst] at hnot
    have hev : e.1 ∈ victims := by
      by_contra hnv
      exact hnot (List.mem_filter.mpr ⟨he, by simpa using hnv⟩)
    rw [htrace]
    rw [List.mem_flatMap]
    exact ⟨e.1, hev, by simp⟩
  · intro e he hnot f hf
    rw [hfst] at hnot
    have hev : e.1 ∈ victims := by
      by_contra hnv
      exact hnot (List.mem_filter.mpr ⟨he, by simpa using hnv⟩)
    exact hlt e.1 hev f.1 (hkeptid f hf)
  · rw [htrace]
    exact removesUnderLock_triples victims

/-- Closed witness for C9: a 101-entry cache with ids `0..100` keeps 100
entries, removes id `0` under its mutex, and the surviving ids all exceed
it. -/
theorem manageMessageCache_spec_witness :
    ((manageMessageCache ((List.range 101).map (fun i => (i, ({} : MsgNode))))).1.length =
      MAX_MESSAGE_NODES)
    ∧ removesUnderLock
        (manageMessageCache
          ((List.range 101).map (fun i => (i, ({} : MsgNode))))).2 = true := by
  have h := manageMessageCache_spec
    ((List.range 101).map (fun i => (i, ({} : MsgNode))))
    (by simp [List.map_map]; exact List.nodup_range 101)
    (by simp [MAX_MESSAGE_NODES])
  exact ⟨h.1, h.2.2.2.2⟩

/-! ## ResponseStreamer, plain mode — `src/core/response_handler.py`

`handle_plain_text_response` (lines 507–588) receives the pre-chunked
segment list, emits one Discord message per segment (editing the progress
message first, then replying to the previous response message), creates a
`MsgNode` for each emitted message and acquires its lock, and on success
writes `"".join(response_contents)` into every node and releases its lock.
Its `except` clause only logs and re-raises — it releases nothing.

Discord send/edit outcomes are an oracle `sendOk` indexed by emission
count; emitted messages get ids `0, 1, …` in emission order.  An errored
run returns the node store at the moment the exception propagates. -/

/-- The per-segment emission loop of `handle_plain_text_response`. -/
def plainLoop (sendOk : Nat → Bool) :
    List String → Nat → List Nat → List (Nat × MsgNode) →
    Except (List (Nat × MsgNode)) (List Nat × List (Nat × MsgNode))
  | [], _, msgs, nodes => Except.ok (msgs, nodes)
  | _ :: rest, i, msgs, nodes =>
    if sendOk i then
      plainLoop sendOk rest (i + 1) (msgs ++ [i])
        (nodes ++ [(i, { text := none, locked := true })])
    else
      Except.error nodes

/-- `handle_plain_text_response`: emit every segment, then write the
concatenated text into every emitted node and release its lock; an
exception anywhere propagates with no cleanup. -/
def handlePlainTextResponse (contents : List String) (sendOk : Nat → Bool) :
    Except (List (Nat × MsgNode)) (List Nat × List (Nat × MsgNode)) :=
  match plainLoop sendOk contents 0 [] [] with
  | Except.error nodes => Except.error nodes
  | Except.ok (msgs, nodes) =>
    Except.ok (msgs,
      nodes.map (fun e =>
        if msgs.contains e.1 then
          (e.1, { text := some (String.join contents), locked := false })
        else e))

/-- C3 fails on the code in plain mode: on the normal path every emitted
node ends with the concatenated segment text and a released lock, but when
an emission raises after an earlier segment was emitted (here: two
segments, the second `reply` call fails), the `except` clause of
`handle_plain_text_response` re-raises without releasing anything, so the
first emitted node's mutex stays held. -/
theorem plainTextResponse_lock_leak :
    (handlePlainTextResponse ["a", "b"] (fun _ => true) =
      Except.ok ([0, 1],
        [(0, { text := some "ab", locked := false }),
         (1, { text := some "ab", locked := false })]))
    ∧ (handlePlainTextResponse ["a", "b"] (fun i => i == 0) =
      Except.error [(0, { text := none, locked := true })]) := by
  constructor
  · rfl
  · rfl

/-! ## ConversationChainBuilder — `src/core/message_processor.py`

`build_conversation_context` (lines 310–484) walks the reply chain
backwards from the newest message.  The chain is modelled as the list of
messages the walk would visit (`find_next_message` resolving each
successor); a fresh node cache is assumed (every node's `text` is `None`
on first visit, as in the synthetic-chain claims), and network fetches of
attachments are fields of the attachment (`fetchedText` for text files,
`encoded` for the base64 payload of a downloaded file). -/

/-- Python `s.lower()` (ASCII case folding). -/
def pyLower (s : String) : String :=
  String.mk (s.data.map Char.toLower)

structure DiscordAttachment where
  contentType : Option String
  filename : String
  size : Nat
  fetchOk : Bool
  fetchedText : String
  encoded : String
deriving DecidableEq

structure DiscordMessage where
  content : String
  embedDescriptions : List (Option String)
  attachments : List DiscordAttachment
  fromBot : Bool
  authorId : Nat
  createdAt : String
  fetchNextRaises : Bool
deriving DecidableEq

/-- `ALLOWED_FILE_TYPES` from `src/core/constants.py`. -/
def ALLOWED_FILE_TYPES : List String :=
  ["image", "text", "application", "audio"]

/-- `VISION_MODEL_TAGS` substring dispatch in
`build_conversation_context`. -/
def VISION_MODEL_TAGS : List String :=
  ["gpt-4o", "claude-3", "gemini", "pixtral", "llava", "vision", "vl", "grok"]

def acceptImages (model : String) : Bool :=
  VISION_MODEL_TAGS.any (fun t => strContains (pyLower model) t)

def acceptUsernames (provider : String) : Bool :=
  ["openai"].any (fun t => strContains (pyLower provider) t)

/-- `good_attachments[type]`: attachments whose truthy content type
contains `type` as a substring. -/
def goodAttachments (msg : DiscordMessage) (t : String) :
    List DiscordAttachment :=
  msg.attachments.filter (fun a =>
    match a.contentType with
    | some ct => ct ≠ "" && strContains ct t
    | none => false)

/-- The `text_parts` list: message content, truthy embed descriptions,
then each successfully fetched text attachment wrapped in an HTML-escaped
`<text_file>` block (a failed fetch is only logged and skipped). -/
def messageTextParts (msg : DiscordMessage) : List String :=
  (if msg.content ≠ "" then [msg.content] else [])
    ++ msg.embedDescriptions.filterMap (fun d =>
      match d with
      | some s => if s ≠ "" then some s else none
      | none => none)
    ++ (goodAttachments msg "text").filterMap (fun a =>
      if a.fetchOk then
        some ("<text_file name=\"" ++ htmlEscape a.filename ++ "\">\n" ++
          htmlEscape a.fetchedText ++ "\n</text_file>")
      else none)

/-- `text_content.replace(bot_user.mention, "", 1).lstrip()` guarded by
`startswith`: the mention is the prefix, so the first occurrence is the
prefix. -/
def stripBotMention (mention : String) (text : String) : String :=
  if hasPrefixAux mention.data text.data then
    pyLStrip (String.mk (text.data.drop mention.data.length))
  else text

/-- The inline data-URL entry appended to `images`
(`data:{mime};base64,{payload}` — the base64 payload is the attachment's
`encoded` oracle field). -/
def imageEntry (mime : String) (encoded : String) : String :=
  "data:" ++ mime ++ ";base64," ++ encoded

/-- `google_supported_mime_types` (lines 68–87). -/
def googleSupportedMimeTypes : List (String × String) :=
  [("application/pdf", "pdf"),
   ("application/x-javascript", "text/javascript"),
   ("text/javascript", "javascript"),
   ("application/x-python", "text/x-python"),
   ("text/x-python", "python"),
   ("text/plain", "txt"),
   ("text/html", "html"),
   ("text/css", "css"),
   ("text/md", "markdown"),
   ("text/csv", "csv"),
   ("text/xml", "xml"),
   ("text/rtf", "rtf"),
   ("audio/wav", "audio"),
   ("audio/mp3", "audio"),
   ("audio/aiff", "audio"),
   ("audio/aac", "audio"),
   ("audio/ogg", "audio"),
   ("audio/flac", "audio")]

def googleMimeLookup (ct : String) : Option String :=
  (googleSupportedMimeTypes.find? (fun p => p.1 = ct)).map Prod.snd

/-- One attachment step of the Google-provider branch (lines 140–220):
oversize ⇒ unsupported flag; images and Google-supported files are
downloaded into data URLs (a failed download sets the flag); anything else
with a truthy content type sets the flag; a falsy content type is
silently skipped. -/
def googleAttachmentStep (acc : List String × Bool) (a : DiscordAttachment) :
    List String × Bool :=
  if a.size > 20 * 1024 * 1024 then (acc.1, true)
  else
    match a.contentType with
    | none => acc
    | some ct =>
      if ct = "" then acc
      else if strContains ct "image" then
        if a.fetchOk then (acc.1 ++ [imageEntry ct a.encoded], acc.2)
        else (acc.1, true)
      else if googleSupportedMimeTypes.any (fun p => strContains ct p.1) then
        let mime :=
          match googleMimeLookup ct with
          | some v => if strContains v "/" then v else ct
          | none => ct
        if a.fetchOk then (acc.1 ++ [imageEntry mime a.encoded], acc.2)
        else (acc.1, true)
      else (acc.1, true)

/-- `process_message_attachments` (lines 39–256): assemble the text
(content, embed descriptions, text-file blocks), strip a leading bot
mention, collect images per provider branch, compute the unsupported
flag, and return the text truncated to `max_text`. -/
def processMessageAttachments (provider : String) (maxText : Nat)
    (botMention : String) (msg : DiscordMessage) :
    String × List String × Bool :=
  let textContent :=
    stripBotMention botMention
      (String.intercalate "\n" (messageTextParts msg))
  if pyLower provider = "google" then
    let r := msg.attachments.foldl googleAttachmentStep ([], false)
    (textContent.take maxText, r.1, r.2)
  else
    let imgs := (goodAttachments msg "image").filterMap (fun a =>
      if a.fetchOk then some (imageEntry (a.contentType.getD "") a.encoded)
      else none)
    let badDownload := (goodAttachments msg "image").any (fun a => !a.fetchOk)
    let goodTotal :=
      (ALLOWED_FILE_TYPES.map (fun t => (goodAttachments msg t).length)).sum
    let bad := badDownload || decide (goodTotal < msg.attachments.length)
    (textContent.take maxText, imgs, bad)

inductive Warning where
  | maxTextExceeded (maxText : Nat)
  | maxImagesExceeded (maxImages : Nat)
  | cantSeeImages
  | unsupportedAttachments
  | onlyUsingLast (n : Nat)
deriving DecidableEq

inductive ContentPart where
  | text (s : String)
  | image (url : String)
deriving DecidableEq

inductive TurnContent where
  | plain (s : String)
  | parts (l : List ContentPart)
deriving DecidableEq

structure Turn where
  role : String
  content : TurnContent
  timestamp : Option String
  name : Option String
deriving DecidableEq

structure BuildConfig where
  provider : String
  model : String
  maxText : Nat
  maxImages : Nat
  maxMessages : Nat
  systemPrompt : String
  todayStr : String
  botMention : String

/-- First resolution of a node (the `curr_node.text is None` branch,
lines 361–394): extracted text/images/flag, role and user id from the
author, and the sticky `fetch_next_failed` flag when `find_next_message`
raised (in which case `next_msg` stays `None`). -/
structure ResolvedNode where
  text : String
  images : List String
  hasBadAttachments : Bool
  role : String
  userId : Option Nat
  fetchNextFailed : Bool

def resolveNode (cfg : BuildConfig) (m : DiscordMessage) : ResolvedNode :=
  let r := processMessageAttachments cfg.provider cfg.maxText cfg.botMention m
  { text := r.1
    images := r.2.1
    hasBadAttachments := r.2.2
    role := if m.fromBot then "assistant" else "user"
    userId := if m.fromBot then none else some m.authorId
    fetchNextFailed := m.fetchNextRaises }

/-- The turn content of lines 397–405: a parts list when the bounded
image list is truthy (text part first, when non-empty), else the plain
truncated text. -/
def formatContent (maxText maxImages : Nat) (node : ResolvedNode) :
    TurnContent :=
  let truncText := node.text.take maxText
  let imgsTaken := node.images.take maxImages
  if imgsTaken ≠ [] then
    TurnContent.parts
      ((if truncText ≠ "" then [ContentPart.text truncText] else [])
        ++ imgsTaken.map ContentPart.image)
  else TurnContent.plain truncText

/-- Python truthiness of the formatted content (`if content != ""`; a
list compares unequal to `""` whatever it holds). -/
def contentTruthy : TurnContent → Bool
  | TurnContent.plain s => s ≠ ""
  | TurnContent.parts _ => true

/-- The dict appended at lines 409–418. -/
def turnOf (cfg : BuildConfig) (m : DiscordMessage) (node : ResolvedNode)
    (content : TurnContent) : Turn :=
  { role := node.role, content := content, timestamp := some m.createdAt,
    name :=
      if acceptUsernames cfg.provider && node.userId.isSome then
        node.userId.map toString
      else none }

/-- The warning accumulation of lines 420–457 for one node
(`msgs2len` is `len(messages)` after the conditional append, `restEmpty`
whether the walk has no further message to visit). -/
def warnsStep (cfg : BuildConfig) (maxImages : Nat) (node : ResolvedNode)
    (restEmpty : Bool) (msgs2len : Nat) (warns : Finset Warning) :
    Finset Warning :=
  let warns1 :=
    if cfg.maxText < node.text.length then
      insert (Warning.maxTextExceeded cfg.maxText) warns
    else warns
  let warns2 :=
    if maxImages < node.images.length then
      insert
        (if 0 < maxImages then Warning.maxImagesExceeded maxImages
         else Warning.cantSeeImages) warns1
    else warns1
  let warns3 :=
    if node.hasBadAttachments then
      insert Warning.unsupportedAttachments warns2
    else warns2
  let nextIsSome : Bool := !node.fetchNextFailed && !restEmpty
  if node.fetchNextFailed ||
      (nextIsSome && msgs2len == cfg.maxMessages) then
    insert (Warning.onlyUsingLast msgs2len) warns3
  else warns3

/-- The `while curr_msg is not None and len(messages) < max_messages`
loop of `build_conversation_context` (lines 358–460), on a fresh cache:
resolve the node, format the turn, append it when truthy, accumulate the
deduplicated warnings, and follow `next_msg` (`None` when the chain ends
or predecessor resolution raised). -/
def buildLoop (cfg : BuildConfig) (maxImages : Nat) :
    List DiscordMessage → List Turn → Finset Warning → List String →
    List Turn × Finset Warning × List String
  | [], msgs, warns, texts => (msgs, warns, texts)
  | m :: rest, msgs, warns, texts =>
    if msgs.length < cfg.maxMessages then
      let node := resolveNode cfg m
      let content := formatContent cfg.maxText maxImages node
      let msgs2 :=
        if contentTruthy content then msgs ++ [turnOf cfg m node content]
        else msgs
      let warns4 := warnsStep cfg maxImages node rest.isEmpty msgs2.length warns
      if node.fetchNextFailed then (msgs2, warns4, texts ++ [node.text])
      else buildLoop cfg maxImages rest msgs2 warns4 (texts ++ [node.text])
    else (msgs, warns, texts)

/-- The system turn of lines 466–480 (base prompt, today's date, and the
user-id note for username-supporting providers). -/
def systemTurn (cfg : BuildConfig) : Turn :=
  { role := "system",
    content := TurnContent.plain (String.intercalate "\n"
      ([cfg.systemPrompt]
        ++ ["Today\x27s date: " ++ cfg.todayStr ++ "."]
        ++ (if acceptUsernames cfg.provider then
            ["User\x27s names are their Discord IDs and should be typed as \x27<@ID>\x27."]
           else []))),
    timestamp := none, name := none }

/-- `messages.insert(0, system)` — skipped for an empty configured prompt
or a grok model. -/
def prependSystem (cfg : BuildConfig) (msgs : List Turn) : List Turn :=
  if cfg.systemPrompt ≠ "" then
    if strContains (pyLower cfg.model) "grok" then msgs
    else systemTurn cfg :: msgs
  else msgs

/-- `build_conversation_context`: run the chain walk, reverse into
chronological order, and prepend the system turn.  The third component is
the list of node texts stored into the cache during the walk, in visit
order. -/
def buildConversationContext (cfg : BuildConfig)
    (chain : List DiscordMessage) :
    List Turn × Finset Warning × List String :=
  let maxImages := if acceptImages cfg.model then cfg.maxImages else 0
  let r := buildLoop cfg maxImages chain [] ∅ []
  (prependSystem cfg r.1.reverse, r.2.1, r.2.2)

/-- Whether a chain message formats to non-empty turn content (the
`if content != ""` test of line 408, recomputed from the resolution). -/
def contentNonemptyOf (cfg : BuildConfig) (maxImages : Nat)
    (m : DiscordMessage) : Bool :=
  contentTruthy (formatContent cfg.maxText maxImages (resolveNode cfg m))

theorem warnsStep_mem_cap (cfg : BuildConfig) (maxImages : Nat)
    (node : ResolvedNode) (warns : Finset Warning)
    (hf : node.fetchNextFailed = false) :
    Warning.onlyUsingLast cfg.maxMessages ∈
      warnsStep cfg maxImages node false cfg.maxMessages warns := by
  unfold warnsStep
  simp [hf]

/-- Chain-cap invariant of the walk loop: with no predecessor-resolution
failures, all contents truthy, fewer accumulated turns than the cap, and
strictly more chain messages remaining than the cap leaves room for, the
loop ends with exactly `max_messages` turns and the
`Only using last max_messages messages` warning recorded. -/
theorem buildLoop_cap (cfg : BuildConfig) (maxImages : Nat) :
    ∀ (chain : List DiscordMessage) (msgs : List Turn)
      (warns : Finset Warning) (texts : List String),
      (∀ m ∈ chain, m.fetchNextRaises = false) →
      (∀ m ∈ chain, contentNonemptyOf cfg maxImages m = true) →
      msgs.length < cfg.maxMessages →
      cfg.maxMessages < msgs.length + chain.length →
      (buildLoop cfg maxImages chain msgs warns texts).1.length =
        cfg.maxMessages ∧
      Warning.onlyUsingLast cfg.maxMessages ∈
        (buildLoop cfg maxImages chain msgs warns texts).2.1 := by
  intro chain
  induction chain with
  | nil =>
    intro msgs warns texts _ _ h1 h2
    simp only [List.length_nil, Nat.add_zero] at h2
    omega
  | cons m rest ih =>
    intro msgs warns texts hnf hne hlt hgt
    have hf : (resolveNode cfg m).fetchNextFailed = false :=
      hnf m (List.mem_cons_self m rest)
    have hc : contentTruthy
        (formatContent cfg.maxText maxImages (resolveNode cfg m)) = true :=
      hne m (List.mem_cons_self m rest)
    rw [buildLoop, if_pos hlt]
    simp only [hf, hc, if_true, Bool.false_eq_true, if_false]
    by_cases hM : msgs.length + 1 = cfg.maxMessages
    · cases rest with
      | nil =>
        simp only [List.length_cons, List.length_nil] at hgt
        omega
      | cons r rs =>
        have hlen2 :
            (msgs ++ [turnOf cfg m (resolveNode cfg m)
              (formatContent cfg.maxText maxImages (resolveNode cfg m))]).length =
            cfg.maxMessages := by
          simp [hM]
        rw [buildLoop, if_neg (by rw [hlen2]; omega)]
        refine ⟨hlen2, ?_⟩
        have hre : (r :: rs).isEmpty = false := rfl
        rw [hre, hlen2]
        exact warnsStep_mem_cap cfg maxImages (resolveNode cfg m) warns hf
    · have hlen2 :
          (msgs ++ [turnOf cfg m (resolveNode cfg m)
            (formatContent cfg.maxText maxImages (resolveNode cfg m))]).length =
          msgs.length + 1 := by
        simp
      apply ih
      · intro u hu; exact hnf u (List.mem_cons_of_mem m hu)
      · intro u hu; exact hne u (List.mem_cons_of_mem m hu)
      · rw [hlen2]; omega
      · rw [hlen2]
        simp only [List.length_cons] at hgt
        omega

theorem buildLoop_roles (cfg : BuildConfig) (maxImages : Nat) :
    ∀ (chain : List DiscordMessage) (msgs : List Turn)
      (warns : Finset Warning) (texts : List String),
      (∀ t ∈ msgs, t.role ≠ "system") →
      ∀ t ∈ (buildLoop cfg maxImages chain msgs warns texts).1,
        t.role ≠ "system" := by
  intro chain
  induction chain with
  | nil =>
    intro msgs warns texts hm t ht
    rw [buildLoop] at ht
    exact hm t ht
  | cons m rest ih =>
    intro msgs warns texts hm t ht
    have hrole : (resolveNode cfg m).role ≠ "system" := by
      unfold resolveNode
      by_cases hb : m.fromBot <;> simp [hb]
    have hmem2 : ∀ u ∈ msgs ++ [turnOf cfg m (resolveNode cfg m)
        (formatContent cfg.maxText maxImages (resolveNode cfg m))],
        u.role ≠ "system" := by
      intro u hu
      rcases List.mem_append.mp hu with h | h
      · exact hm u h
      · rw [List.mem_singleton.mp h]
        exact hrole
    rw [buildLoop] at ht
    by_cases hg : msgs.length < cfg.maxMessages
    · rw [if_pos hg] at ht
      simp only at ht
      by_cases hcf : contentTruthy
          (formatContent cfg.maxText maxImages (resolveNode cfg m)) = true
      · simp only [hcf, if_true] at ht
        by_cases hff : (resolveNode cfg m).fetchNextFailed = true
        · simp only [hff, if_true] at ht
          exact hmem2 t ht
        · simp only [Bool.not_eq_true] at hff
          simp only [hff, Bool.false_eq_true, if_false] at ht
          exact ih _ _ _ hmem2 t ht
      · simp only [Bool.not_eq_true] at hcf
        simp only [hcf, Bool.false_eq_true, if_false] at ht
        by_cases hff : (resolveNode cfg m).fetchNextFailed = true
        · simp only [hff, if_true] at ht
          exact hm t ht
        · simp only [Bool.not_eq_true] at hff
          simp only [hff, Bool.false_eq_true, if_false] at ht
          exact ih _ _ _ hm t ht
    · rw [if_neg hg] at ht
      exact hm t ht

theorem filter_prependSystem (cfg : BuildConfig) (l : List Turn) :
    (prependSystem cfg l).filter (fun t => decide (t.role ≠ "system")) =
      l.filter (fun t => decide (t.role ≠ "system")) := by
  unfold prependSystem
  by_cases h1 : cfg.systemPrompt ≠ "" <;>
    by_cases h2 : strContains (pyLower cfg.model) "grok" <;>
      simp [h1, h2, systemTurn]

/-- C1 (amended: `1 ≤ max_messages`).  For a reply chain longer than the
configured positive `max_messages`, all of whose messages resolve without
predecessor failures and format to non-empty content,
`build_conversation_context` returns exactly `max_messages` chain turns
(the prepended system turn excluded) and the warning set contains the
`Only using last max_messages messages` warning. -/
theorem buildConversationContext_chain_cap (cfg : BuildConfig)
    (chain : List DiscordMessage)
    (hnf : ∀ m ∈ chain, m.fetchNextRaises = false)
    (hne : ∀ m ∈ chain, contentNonemptyOf cfg
      (if acceptImages cfg.model then cfg.maxImages else 0) m = true)
    (hM1 : 1 ≤ cfg.maxMessages)
    (hML : cfg.maxMessages < chain.length) :
    ((buildConversationContext cfg chain).1.filter
      (fun t => decide (t.role ≠ "system"))).length = cfg.maxMessages
    ∧ Warning.onlyUsingLast cfg.maxMessages ∈
        (buildConversationContext cfg chain).2.1 := by
  have hcap := buildLoop_cap cfg
    (if acceptImages cfg.model then cfg.maxImages else 0) chain [] ∅ []
    hnf hne (by simpa using hM1) (by simpa using hML)
  have hroles := buildLoop_roles cfg
    (if acceptImages cfg.model then cfg.maxImages else 0) chain [] ∅ []
    (by intro t ht; simp at ht)
  unfold buildConversationContext
  simp only
  constructor
  · rw [filter_prependSystem]
    rw [List.filter_eq_self.mpr]
    · rw [List.length_reverse]
      exact hcap.1
    · intro t ht
      have := hroles t (List.mem_reverse.mp ht)
      simpa using this
  · exact hcap.2

/-- Configuration and chain for the C1 boundary counterexample:
`max_messages = 0`. -/
def cfgCap0 : BuildConfig :=
  { provider := "x", model := "m", maxText := 100, maxImages := 5,
    maxMessages := 0, systemPrompt := "", todayStr := "", botMention := "<@1>" }

def msgHi : DiscordMessage :=
  { content := "hi", embedDescriptions := [], attachments := [],
    fromBot := false, authorId := 1, createdAt := "t",
    fetchNextRaises := false }

set_option maxRecDepth 8192 in
/-- C1 as frozen is false at `max_messages = 0`: a one-message chain with
non-empty content and `M = 0 < 1 = L` yields zero chain turns (as the
claim predicts) but an *empty* warning set — the `Only using last 0
messages` warning is absent because the loop never runs. -/
theorem buildConversationContext_cap_zero_counterexample :
    (cfgCap0.maxMessages < ([msgHi] : List DiscordMessage).length)
    ∧ (∀ m ∈ [msgHi], m.fetchNextRaises = false)
    ∧ (∀ m ∈ [msgHi], contentNonemptyOf cfgCap0
        (if acceptImages cfgCap0.model then cfgCap0.maxImages else 0) m = true)
    ∧ ((buildConversationContext cfgCap0 [msgHi]).1.filter
        (fun t => decide (t.role ≠ "system"))).length = cfgCap0.maxMessages
    ∧ Warning.onlyUsingLast cfgCap0.maxMessages ∉
        (buildConversationContext cfgCap0 [msgHi]).2.1 := by
  refine ⟨by decide, by decide, by decide, by decide, by decide⟩

def cfgCap1 : BuildConfig :=
  { provider := "x", model := "m", maxText := 100, maxImages := 5,
    maxMessages := 1, systemPrompt := "", todayStr := "", botMention := "<@1>" }

def msgYo : DiscordMessage :=
  { content := "yo", embedDescriptions := [], attachments := [],
    fromBot := true, authorId := 2, createdAt := "t2",
    fetchNextRaises := false }

set_option maxRecDepth 8192 in
/-- Closed witness for the amended C1: a two-message chain with
`max_messages = 1` returns one turn plus the warning. -/
theorem buildConversationContext_chain_cap_witness :
    ((buildConversationContext cfgCap1 [msgHi, msgYo]).1.filter
      (fun t => decide (t.role ≠ "system"))).length = 1
    ∧ Warning.onlyUsingLast 1 ∈
        (buildConversationContext cfgCap1 [msgHi, msgYo]).2.1 := by
  have h := buildConversationContext_chain_cap cfgCap1 [msgHi, msgYo]
    (by decide) (by decide) (by decide) (by decide)
  simpa [cfgCap1] using h

/-- Configuration and message for C2: `max_text = 3`, extracted body
`"abcd"` of length 4. -/
def cfgTrunc : BuildConfig :=
  { provider := "x", model := "m", maxText := 3, maxImages := 5,
    maxMessages := 100, systemPrompt := "", todayStr := "",
    botMention := "<@1>" }

def msgLong : DiscordMessage :=
  { content := "abcd", embedDescriptions := [], attachments := [],
    fromBot := false, authorId := 1, createdAt := "t",
    fetchNextRaises := false }

set_option maxRecDepth 8192 in
/-- C2 fails on the code: for a message whose extracted body ("abcd",
4 characters) exceeds `max_text = 3`, the stored node text is indeed
exactly `max_text` characters ("abc") — but the warning set stays empty.
`process_message_attachments` returns `text_content[:max_text]`, so the
cached `curr_node.text` is already truncated and the
`len(curr_node.text) > max_text` check at line 421 can never fire on a
freshly resolved node, contradicting the claim (and the intent evidenced
by the check's presence). -/
theorem buildConversationContext_truncation_no_warning :
    (cfgTrunc.maxText <
      (stripBotMention cfgTrunc.botMention
        (String.intercalate "\n" (messageTextParts msgLong))).length)
    ∧ (buildConversationContext cfgTrunc [msgLong]).2.2 = ["abc"]
    ∧ ("abc" : String).length = cfgTrunc.maxText
    ∧ Warning.maxTextExceeded cfgTrunc.maxText ∉
        (buildConversationContext cfgTrunc [msgLong]).2.1
    ∧ (buildConversationContext cfgTrunc [msgLong]).2.1 = ∅ := by
  refine ⟨by decide, by decide, by decide, by decide, by decide⟩

/-! ## ResponseStreamer, rich mode — `src/core/response_handler.py`

`handle_streaming_response` (lines 190–504).  The token stream is a list
of chunks, each carrying the delta content (`delta.content or ""`) and an
optional finish reason; `emitOk n` is the Discord outcome of the `n`-th
message creation (edit of the progress message, then threaded replies),
`ready i` the wall-clock edit throttle at iteration `i` (`edit_task`
done and `EDIT_DELAY_SECONDS` elapsed).  Emitted messages get ids
`0, 1, 2, …` in emission order, so `response_msgs.index(response_msgs[-1])
== 0` is `len(response_msgs) == 1`.  Message edits are recorded in
`lastEdit` (the final rendered description and whether the embed color is
`EMBED_COLOR_COMPLETE`); the in-flight `asyncio` edit tasks are awaited
before the next edit is issued, so edits apply in issue order and only the
last one per message matters. -/

structure Chunk where
  content : String
  finishReason : Option String
deriving DecidableEq

/-- `STREAMING_INDICATOR` from `src/core/constants.py`. -/
def STREAMING_INDICATOR : String := " ⚪"

def discordEmbedLimit : Nat := 4096

/-- `first_msg_content_limit` (line 237). -/
def firstMsgContentLimit (searched : String) : Nat :=
  discordEmbedLimit - searched.length - STREAMING_INDICATOR.length

/-- `cont_msg_content_limit` (line 240). -/
def contMsgContentLimit : Nat :=
  discordEmbedLimit - STREAMING_INDICATOR.length

structure StreamEdit where
  description : String
  complete : Bool
deriving DecidableEq

structure StreamState where
  contents : List String
  msgs : List Nat
  nodes : List (Nat × MsgNode)
  lastEdit : Nat → Option StreamEdit
  prevContent : String

def initStreamState : StreamState :=
  { contents := [], msgs := [], nodes := [], lastEdit := fun _ => none,
    prevContent := "" }

def updateEdit (f : Nat → Option StreamEdit) (id : Nat) (e : StreamEdit) :
    Nat → Option StreamEdit :=
  fun j => if j = id then some e else f j

/-- Lines 257–296: first segment opened, the progress message becomes
response message `0` (initial embed: searched-for text plus indicator,
incomplete color), its node is created and its lock acquired. -/
def firstMessageState (searched : String) (st : StreamState) : StreamState :=
  { st with
    contents := [""],
    msgs := st.msgs ++ [st.msgs.length],
    nodes := st.nodes ++ [(st.msgs.length, { text := none, locked := true })],
    lastEdit := updateEdit st.lastEdit st.msgs.length
      { description := searched ++ STREAMING_INDICATOR, complete := false } }

/-- Lines 302–349: the previous segment overflowed — append a fresh
segment and re-edit the previous message with its final content plus the
streaming indicator, in the *incomplete* color. -/
def closeSegmentState (searched : String) (st : StreamState) : StreamState :=
  let contents2 := st.contents ++ [""]
  { st with
    contents := contents2,
    lastEdit := updateEdit st.lastEdit (st.msgs.getLast?.getD 0)
      { description :=
          (if contents2.length = 2 && searched ≠ "" then searched else "") ++
            contents2.getD (contents2.length - 2) "" ++ STREAMING_INDICATOR,
        complete := false } }

/-- Lines 351–378: the threaded continuation message (indicator-only
embed, incomplete color), its node created and locked. -/
def newContinuationState (st : StreamState) : StreamState :=
  { st with
    msgs := st.msgs ++ [st.msgs.length],
    nodes := st.nodes ++ [(st.msgs.length, { text := none, locked := true })],
    lastEdit := updateEdit st.lastEdit st.msgs.length
      { description := STREAMING_INDICATOR, complete := false } }

/-- Line 382: `response_contents[-1] += prev_content`. -/
def streamContents3 (st : StreamState) : List String :=
  st.contents.dropLast ++ [st.contents.getLast?.getD "" ++ st.prevContent]

/-- Lines 393–396: the embed limit applying to the current message. -/
def streamLimitCur (searched : String) (contents3 : List String) : Nat :=
  if contents3.length = 1 then firstMsgContentLimit searched
  else contMsgContentLimit

/-- Line 397: `msg_split_incoming`. -/
def streamMsgSplitIncoming (searched : String) (c : Chunk)
    (contents3 : List String) : Bool :=
  decide (streamLimitCur searched contents3 <
    (contents3.getLast?.getD "" ++ c.content).length)

/-- Lines 400–404: `is_good_finish` — the finish reason compares
case-insensitively equal to `stop` or `end_turn`. -/
def streamIsGoodFinish (c : Chunk) : Bool :=
  match c.finishReason with
  | some r => decide (pyLower r = "stop") || decide (pyLower r = "end_turn")
  | none => false

/-- Lines 380–476: append the previous chunk's content to the current
segment, then perform the throttled or forced edit of the current
message: complete color iff a split is incoming or the stream finished
with a clean stop; the indicator is appended unless this is the final
edit. -/
def streamAppendAndEdit (searched : String) (ready : Nat → Bool) (i : Nat)
    (c : Chunk) (st : StreamState) : StreamState :=
  let contents3 := streamContents3 st
  let msgSplitIncoming := streamMsgSplitIncoming searched c contents3
  let isFinalEdit : Bool := c.finishReason.isSome || msgSplitIncoming
  let lastEdit2 :=
    if (ready i || isFinalEdit) && !st.msgs.isEmpty then
      updateEdit st.lastEdit (st.msgs.getLast?.getD 0)
        { description :=
            (if searched ≠ "" && st.msgs.length = 1 then searched else "") ++
              contents3.getLast?.getD "" ++
              (if !isFinalEdit then STREAMING_INDICATOR else ""),
          complete := msgSplitIncoming || streamIsGoodFinish c }
    else st.lastEdit
  { contents := contents3, msgs := st.msgs, nodes := st.nodes,
    lastEdit := lastEdit2, prevContent := c.content }

/-- One pass of the `async for curr_chunk in stream` body; `.error st`
models an exception raised by message creation, carrying the state at the
raise. -/
def streamIter (searched : String) (emitOk ready : Nat → Bool) (i : Nat)
    (c : Chunk) (st : StreamState) : Except StreamState StreamState :=
  if st.contents.isEmpty && st.prevContent = "" then
    Except.ok { st with prevContent := c.content }
  else if st.contents.isEmpty then
    if emitOk st.msgs.length then
      Except.ok (streamAppendAndEdit searched ready i c
        (firstMessageState searched st))
    else Except.error st
  else if
    (if st.contents.length = 1 then firstMsgContentLimit searched
     else contMsgContentLimit) <
      (st.contents.getLast?.getD "" ++ st.prevContent).length then
    let st2 := closeSegmentState searched st
    if emitOk st2.msgs.length then
      Except.ok (streamAppendAndEdit searched ready i c
        (newContinuationState st2))
    else Except.error st2
  else
    Except.ok (streamAppendAndEdit searched ready i c st)

def streamRun (searched : String) (emitOk ready : Nat → Bool) :
    List Chunk → Nat → StreamState → Except StreamState StreamState
  | [], _, st => Except.ok st
  | c :: cs, i, st =>
    match streamIter searched emitOk ready i c st with
    | Except.error st2 => Except.error st2
    | Except.ok st2 => streamRun searched emitOk ready cs (i + 1) st2

structure StreamResult where
  ok : Bool
  msgs : List Nat
  contents : List String
  nodes : List (Nat × MsgNode)
  lastEdit : Nat → Option StreamEdit

/-- The cleanup of the `except` clause (lines 492–504): release each
emitted message's node lock (text not written). -/
def releaseAllLocks (msgs : List Nat) (nodes : List (Nat × MsgNode)) :
    List (Nat × MsgNode) :=
  nodes.map (fun e =>
    if msgs.contains e.1 then (e.1, { e.2 with locked := false }) else e)

/-- The completion loop (lines 481–484): write `"".join(response_contents)`
into every emitted message's node and release its lock. -/
def finalizeNodes (msgs : List Nat) (contents : List String)
    (nodes : List (Nat × MsgNode)) : List (Nat × MsgNode) :=
  nodes.map (fun e =>
    if msgs.contains e.1 then
      (e.1, { text := some (String.join contents), locked := false })
    else e)

/-- `handle_streaming_response`: iterate the stream (`streamRaises` models
an exception from the stream iterator after the listed chunks), then
either the completion loop or the cleanup-and-re-raise path. -/
def handleStreamingResponse (searched : String) (emitOk ready : Nat → Bool)
    (chunks : List Chunk) (streamRaises : Bool) : StreamResult :=
  match streamRun searched emitOk ready chunks 0 initStreamState with
  | Except.error st =>
    { ok := false, msgs := st.msgs, contents := st.contents,
      nodes := releaseAllLocks st.msgs st.nodes, lastEdit := st.lastEdit }
  | Except.ok st =>
    if streamRaises then
      { ok := false, msgs := st.msgs, contents := st.contents,
        nodes := releaseAllLocks st.msgs st.nodes, lastEdit := st.lastEdit }
    else
      { ok := true, msgs := st.msgs, contents := st.contents,
        nodes := finalizeNodes st.msgs st.contents st.nodes,
        lastEdit := st.lastEdit }

theorem streamIter_skip (searched : String) (emitOk ready : Nat → Bool)
    (i : Nat) (c : Chunk) (st : StreamState)
    (h1 : st.contents = []) (h2 : st.prevContent = "") :
    streamIter searched emitOk ready i c st =
      Except.ok { st with prevContent := c.content } := by
  unfold streamIter
  rw [h1, h2]
  simp

theorem streamIter_first (searched : String) (emitOk ready : Nat → Bool)
    (i : Nat) (c : Chunk) (st : StreamState)
    (h1 : st.contents = []) (h2 : st.prevContent ≠ "")
    (he : emitOk st.msgs.length = true) :
    streamIter searched emitOk ready i c st =
      Except.ok (streamAppendAndEdit searched ready i c
        (firstMessageState searched st)) := by
  unfold streamIter
  rw [h1]
  simp [h2, he]

theorem streamIter_split (searched : String) (emitOk ready : Nat → Bool)
    (i : Nat) (c : Chunk) (st : StreamState)
    (h1 : st.contents.isEmpty = false)
    (hover : (if st.contents.length = 1 then firstMsgContentLimit searched
        else contMsgContentLimit) <
      (st.contents.getLast?.getD "" ++ st.prevContent).length)
    (he : emitOk (closeSegmentState searched st).msgs.length = true) :
    streamIter searched emitOk ready i c st =
      Except.ok (streamAppendAndEdit searched ready i c
        (newContinuationState (closeSegmentState searched st))) := by
  unfold streamIter
  simp [h1, hover, he]
  intro hle
  exfalso
  rw [String.length_append] at hover
  omega

theorem streamIter_plain (searched : String) (emitOk ready : Nat → Bool)
    (i : Nat) (c : Chunk) (st : StreamState)
    (h1 : st.contents.isEmpty = false)
    (hnoover : ¬ ((if st.contents.length = 1 then firstMsgContentLimit searched
        else contMsgContentLimit) <
      (st.contents.getLast?.getD "" ++ st.prevContent).length)) :
    streamIter searched emitOk ready i c st =
      Except.ok (streamAppendAndEdit searched ready i c st) := by
  unfold streamIter
  simp [h1, hnoover]
  intro hlt
  exfalso
  rw [String.length_append] at hnoover
  omega

theorem appendEdit_contents (searched : String) (ready : Nat → Bool) (i : Nat)
    (c : Chunk) (st : StreamState) :
    (streamAppendAndEdit searched ready i c st).contents =
      st.contents.dropLast ++
        [st.contents.getLast?.getD "" ++ st.prevContent] := rfl

theorem appendEdit_msgs (searched : String) (ready : Nat → Bool) (i : Nat)
    (c : Chunk) (st : StreamState) :
    (streamAppendAndEdit searched ready i c st).msgs = st.msgs := rfl

theorem appendEdit_nodes (searched : String) (ready : Nat → Bool) (i : Nat)
    (c : Chunk) (st : StreamState) :
    (streamAppendAndEdit searched ready i c st).nodes = st.nodes := rfl

theorem appendEdit_prev (searched : String) (ready : Nat → Bool) (i : Nat)
    (c : Chunk) (st : StreamState) :
    (streamAppendAndEdit searched ready i c st).prevContent = c.content := rfl

theorem string_mk_length (l : List Char) : (String.mk l).length = l.length :=
  rfl

/-- Every Discord emission succeeds. -/
def allOk : Nat → Bool := fun _ => true

/-- The edit throttle is never ready (the forced final edits still run). -/
def neverReady : Nat → Bool := fun _ => false

def bigA : String := String.mk (List.replicate 4093 'a')

def bigC : String := String.mk (List.replicate 4093 'c')

/-- A stream whose concatenated content length is exactly twice the
segment limit (4093 + 2 + 4093 = 2·4094), delivered as three multi-char
tokens plus a contentless terminal chunk. -/
def chunksCex : List Chunk :=
  [⟨bigA, none⟩, ⟨"bb", none⟩, ⟨bigC, none⟩, ⟨"", some "stop"⟩]

theorem bigA_length : bigA.length = 4093 := by
  rw [bigA, string_mk_length, List.length_replicate]

theorem bigC_length : bigC.length = 4093 := by
  rw [bigC, string_mk_length, List.length_replicate]

theorem bigA_ne_empty : bigA ≠ "" := by
  intro h
  have h2 := congrArg String.length h
  rw [bigA_length] at h2
  simp at h2

/-- C4 as frozen is false: this stream's concatenated content length is
exactly `K = 2` times the segment limit, yet rich mode produces **3**
segments — the chunker never splits a token, so a token that would
overflow moves whole into a fresh segment, wasting capacity. -/
theorem streamSegmentation_counterexample :
    ((chunksCex.map (fun c => c.content.length)).sum = 2 * contMsgContentLimit)
    ∧ (handleStreamingResponse "" allOk neverReady chunksCex
        false).contents.length = 3 := by
  have hcml : contMsgContentLimit = 4094 := rfl
  have hfml : firstMsgContentLimit "" = 4094 := rfl
  have hbb : ("bb" : String).length = 2 := rfl
  have hemp : ("" : String).length = 0 := rfl
  constructor
  · simp only [chunksCex, List.map_cons, List.map_nil, List.sum_cons,
      List.sum_nil, bigA_length, bigC_length, hbb, hemp, hcml]
    omega
  · have h0 : streamIter "" allOk neverReady 0 ⟨bigA, none⟩ initStreamState =
        Except.ok { initStreamState with prevContent := bigA } :=
      streamIter_skip _ _ _ _ _ _ rfl rfl
    set S1 : StreamState := { initStreamState with prevContent := bigA }
      with hS1def
    have hS1c : S1.contents = [] := rfl
    have hS1m : S1.msgs = [] := rfl
    have hS1p : S1.prevContent = bigA := rfl
    have hS1ne : S1.prevContent ≠ "" := by rw [hS1p]; exact bigA_ne_empty
    have h1 : streamIter "" allOk neverReady 1 ⟨"bb", none⟩ S1 =
        Except.ok (streamAppendAndEdit "" neverReady 1 ⟨"bb", none⟩
          (firstMessageState "" S1)) :=
      streamIter_first _ _ _ _ _ _ hS1c hS1ne rfl
    set S2 := streamAppendAndEdit "" neverReady 1 ⟨"bb", none⟩
      (firstMessageState "" S1) with hS2def
    have hS2c : S2.contents = ["" ++ bigA] := by
      rw [hS2def, appendEdit_contents]
      simp [firstMessageState, hS1p]
    have hS2m : S2.msgs = [0] := by
      rw [hS2def, appendEdit_msgs]
      simp [firstMessageState, initStreamState]
    have hS2p : S2.prevContent = "bb" := by rw [hS2def, appendEdit_prev]
    have hc2 : S2.contents.isEmpty = false := by rw [hS2c]; rfl
    have hover2 : (if S2.contents.length = 1 then firstMsgContentLimit ""
        else contMsgContentLimit) <
        (S2.contents.getLast?.getD "" ++ S2.prevContent).length := by
      rw [hS2c, hS2p]
      simp only [List.length_singleton, if_pos, hfml, List.getLast?_singleton,
        Option.getD_some, String.length_append, bigA_length, hbb, hemp]
      omega
    have h2 : streamIter "" allOk neverReady 2 ⟨bigC, none⟩ S2 =
        Except.ok (streamAppendAndEdit "" neverReady 2 ⟨bigC, none⟩
          (newContinuationState (closeSegmentState "" S2))) :=
      streamIter_split _ _ _ _ _ _ hc2 hover2 rfl
    set S3 := streamAppendAndEdit "" neverReady 2 ⟨bigC, none⟩
      (newContinuationState (closeSegmentState "" S2)) with hS3def
    have hS3c : S3.contents = ["" ++ bigA, "" ++ "bb"] := by
      rw [hS3def, appendEdit_contents]
      simp [newContinuationState, closeSegmentState, hS2c, hS2p]
    have hS3m : S3.msgs = [0, 1] := by
      rw [hS3def, appendEdit_msgs]
      simp [newContinuationState, closeSegmentState, hS2m]
    have hS3p : S3.prevContent = bigC := by rw [hS3def, appendEdit_prev]
    have hc3 : S3.contents.isEmpty = false := by rw [hS3c]; rfl
    have hover3 : (if S3.contents.length = 1 then firstMsgContentLimit ""
        else contMsgContentLimit) <
        (S3.contents.getLast?.getD "" ++ S3.prevContent).length := by
      rw [hS3c, hS3p]
      have hg : (["" ++ bigA, "" ++ "bb"] : List String).getLast?.getD "" =
          "" ++ "bb" := rfl
      have hl : (["" ++ bigA, "" ++ "bb"] : List String).length = 2 := rfl
      rw [hg, hl, if_neg (by omega)]
      rw [String.length_append, String.length_append, hemp, hbb, bigC_length,
        hcml]
      omega
    have h3 : streamIter "" allOk neverReady 3 ⟨"", some "stop"⟩ S3 =
        Except.ok (streamAppendAndEdit "" neverReady 3 ⟨"", some "stop"⟩
          (newContinuationState (closeSegmentState "" S3))) :=
      streamIter_split _ _ _ _ _ _ hc3 hover3 rfl
    set S4 := streamAppendAndEdit "" neverReady 3 ⟨"", some "stop"⟩
      (newContinuationState (closeSegmentState "" S3)) with hS4def
    have hS4c : S4.contents = ["" ++ bigA, "" ++ "bb", "" ++ bigC] := by
      rw [hS4def, appendEdit_contents]
      simp [newContinuationState, closeSegmentState, hS3c, hS3p]
    have step0 : streamRun "" allOk neverReady
        [⟨bigA, none⟩, ⟨"bb", none⟩, ⟨bigC, none⟩, ⟨"", some "stop"⟩] 0
          initStreamState =
        streamRun "" allOk neverReady
          [⟨"bb", none⟩, ⟨bigC, none⟩, ⟨"", some "stop"⟩] 1 S1 := by
      rw [streamRun, h0]
    have step1 : streamRun "" allOk neverReady
        [⟨"bb", none⟩, ⟨bigC, none⟩, ⟨"", some "stop"⟩] 1 S1 =
        streamRun "" allOk neverReady [⟨bigC, none⟩, ⟨"", some "stop"⟩] 2 S2 := by
      rw [streamRun, h1]
    have step2 : streamRun "" allOk neverReady
        [⟨bigC, none⟩, ⟨"", some "stop"⟩] 2 S2 =
        streamRun "" allOk neverReady [⟨"", some "stop"⟩] 3 S3 := by
      rw [streamRun, h2]
    have step3 : streamRun "" allOk neverReady [⟨"", some "stop"⟩] 3 S3 =
        Except.ok S4 := by
      rw [streamRun, h3]
      rfl
    have hfull : streamRun "" allOk neverReady chunksCex 0 initStreamState =
        Except.ok S4 := by
      rw [show chunksCex =
        [⟨bigA, none⟩, ⟨"bb", none⟩, ⟨bigC, none⟩, ⟨"", some "stop"⟩] from rfl]
      exact ((step0.trans step1).trans step2).trans step3
    have hres : handleStreamingResponse "" allOk neverReady chunksCex false =
        { ok := true, msgs := S4.msgs, contents := S4.contents,
          nodes := finalizeNodes S4.msgs S4.contents S4.nodes,
          lastEdit := S4.lastEdit } := by
      unfold handleStreamingResponse
      rw [hfull]
      rfl
    rw [hres]

    rw [hS4c]
    rfl

theorem firstLimit_empty : firstMsgContentLimit "" = contMsgContentLimit := rfl

theorem contLimit_pos : 0 < contMsgContentLimit := by decide

theorem streamContents3_eq (st : StreamState) (segs : List String)
    (lastSeg : String) (h : st.contents = segs ++ [lastSeg]) :
    streamContents3 st = segs ++ [lastSeg ++ st.prevContent] := by
  unfold streamContents3
  rw [h]
  simp

theorem isEmpty_false_of_concat (l : List String) (a : String)
    (st : StreamState) (h : st.contents = l ++ [a]) :
    st.contents.isEmpty = false := by
  rw [h]
  cases l <;> rfl

theorem msgs_isEmpty_false (l : List Nat) (n : Nat) (h : l.length = n + 1) :
    l.isEmpty = false := by
  cases l with
  | nil => simp at h
  | cons a as => rfl

theorem ceil_div_formula (a b L : Nat) (hL : 0 < L) (h1 : 1 ≤ b)
    (h2 : b ≤ L) : (a * L + b + L - 1) / L = a + 1 := by
  have h3 : a * L + b + L - 1 = L * a + (L + (b - 1)) := by
    have hc : a * L = L * a := Nat.mul_comm a L
    omega
  have h4 : L * a + (L + (b - 1)) = L * (a + 1) + (b - 1) := by ring
  rw [h3, h4, Nat.mul_add_div hL, Nat.div_eq_of_lt (by omega)]

/-- The forced final edit: when the chunk carries a finish reason and at
least one message exists, the current message's recorded embed ends with
the complete color iff a split is incoming or the finish is clean. -/
theorem appendEdit_lastEdit_final (searched : String) (ready : Nat → Bool)
    (i : Nat) (c : Chunk) (st : StreamState)
    (hfin : c.finishReason.isSome = true)
    (hmsgs : st.msgs.isEmpty = false) :
    ∃ d, (streamAppendAndEdit searched ready i c st).lastEdit
        (st.msgs.getLast?.getD 0) =
      some { description := d,
             complete :=
               streamMsgSplitIncoming searched c (streamContents3 st) ||
                 streamIsGoodFinish c } := by
  refine ⟨(if searched ≠ "" && st.msgs.length = 1 then searched else "") ++
      (streamContents3 st).getLast?.getD "" ++
      (if !(c.finishReason.isSome ||
          streamMsgSplitIncoming searched c (streamContents3 st)) then
        STREAMING_INDICATOR else ""), ?_⟩
  unfold streamAppendAndEdit
  simp only [hfin, Bool.true_or, Bool.or_true, hmsgs, Bool.not_false,
    Bool.and_true, if_true]
  simp [updateEdit]

theorem streamRun_cons_ok (searched : String) (emitOk ready : Nat → Bool)
    (c : Chunk) (cs : List Chunk) (i : Nat) (st st2 : StreamState)
    (h : streamIter searched emitOk ready i c st = Except.ok st2) :
    streamRun searched emitOk ready (c :: cs) i st =
      streamRun searched emitOk ready cs (i + 1) st2 := by
  rw [streamRun, h]

theorem contState_contents (st : StreamState) :
    (newContinuationState (closeSegmentState "" st)).contents =
      st.contents ++ [""] := rfl

theorem contState_msgs (st : StreamState) :
    (newContinuationState (closeSegmentState "" st)).msgs =
      st.msgs ++ [st.msgs.length] := rfl

theorem contState_prev (st : StreamState) :
    (newContinuationState (closeSegmentState "" st)).prevContent =
      st.prevContent := rfl

theorem streamIter_nosplit_of_inv (ready : Nat → Bool) (i : Nat) (c : Chunk)
    (st : StreamState) (segs : List String) (lastSeg : String)
    (hc : st.contents = segs ++ [lastSeg])
    (hrle : lastSeg.length < contMsgContentLimit)
    (hprev : st.prevContent.length = 1) :
    streamIter "" allOk ready i c st =
      Except.ok (streamAppendAndEdit "" ready i c st) := by
  apply streamIter_plain
  · exact isEmpty_false_of_concat segs lastSeg st hc
  · rw [hc]
    have hgl : ((segs ++ [lastSeg]).getLast?.getD "") = lastSeg := by simp
    rw [hgl, String.length_append, hprev]
    by_cases h : (segs ++ [lastSeg]).length = 1 <;>
      simp only [h, if_true, if_false, firstLimit_empty, not_lt] <;> omega

theorem streamIter_splits_of_inv (ready : Nat → Bool) (i : Nat) (c : Chunk)
    (st : StreamState) (segs : List String) (lastSeg : String)
    (hc : st.contents = segs ++ [lastSeg])
    (hr : lastSeg.length = contMsgContentLimit)
    (hprev : st.prevContent.length = 1) :
    streamIter "" allOk ready i c st =
      Except.ok (streamAppendAndEdit "" ready i c
        (newContinuationState (closeSegmentState "" st))) := by
  apply streamIter_split
  · exact isEmpty_false_of_concat segs lastSeg st hc
  · rw [hc]
    have hgl : ((segs ++ [lastSeg]).getLast?.getD "") = lastSeg := by simp
    rw [hgl, String.length_append, hprev]
    by_cases h : (segs ++ [lastSeg]).length = 1 <;>
      simp only [h, if_true, if_false, firstLimit_empty] <;> omega
  · rfl

theorem msgSplit_false_of_short (c : Chunk) (st : StreamState)
    (segs : List String) (lastSeg : String)
    (hc3 : streamContents3 st = segs ++ [lastSeg])
    (hcc : c.content = "")
    (hlen : lastSeg.length ≤ contMsgContentLimit) :
    streamMsgSplitIncoming "" c (streamContents3 st) = false := by
  unfold streamMsgSplitIncoming streamLimitCur
  rw [hc3, hcc]
  have hgl : ((segs ++ [lastSeg]).getLast?.getD "") = lastSeg := by simp
  rw [hgl]
  simp only [decide_eq_false_iff_not, not_lt, String.length_append]
  have hemp : ("" : String).length = 0 := rfl
  by_cases h : (segs ++ [lastSeg]).length = 1 <;>
    simp only [h, if_true, if_false, firstLimit_empty, hemp] <;> omega

/-- One single-character chunk preserves the filling invariant and grows
the appended total by one character (splitting off a full segment when the
last one is exactly full). -/
theorem streamChar_step (ready : Nat → Bool) (i : Nat) (ch : Char)
    (st : StreamState) (segs : List String) (lastSeg : String)
    (hc : st.contents = segs ++ [lastSeg])
    (hsegs : ∀ s ∈ segs, s.length = contMsgContentLimit)
    (hr1 : 1 ≤ lastSeg.length)
    (hrL : lastSeg.length ≤ contMsgContentLimit)
    (hm : st.msgs.length = segs.length + 1)
    (hprev : st.prevContent.length = 1) :
    ∃ st2, streamIter "" allOk ready i ⟨String.mk [ch], none⟩ st =
        Except.ok st2
      ∧ ∃ segs2 lastSeg2, st2.contents = segs2 ++ [lastSeg2]
        ∧ (∀ s ∈ segs2, s.length = contMsgContentLimit)
        ∧ 1 ≤ lastSeg2.length
        ∧ lastSeg2.length ≤ contMsgContentLimit
        ∧ st2.msgs.length = segs2.length + 1
        ∧ st2.prevContent.length = 1
        ∧ segs2.length * contMsgContentLimit + lastSeg2.length =
            segs.length * contMsgContentLimit + lastSeg.length + 1 := by
  by_cases hsplit : lastSeg.length = contMsgContentLimit
  · refine ⟨streamAppendAndEdit "" ready i ⟨String.mk [ch], none⟩
      (newContinuationState (closeSegmentState "" st)),
      streamIter_splits_of_inv ready i _ st segs lastSeg hc hsplit hprev,
      segs ++ [lastSeg], "" ++ st.prevContent, ?_, ?_, ?_, ?_, ?_, ?_, ?_⟩
    · rw [appendEdit_contents]
      rw [show (newContinuationState (closeSegmentState "" st)).contents.dropLast ++
        [(newContinuationState (closeSegmentState "" st)).contents.getLast?.getD "" ++
          (newContinuationState (closeSegmentState "" st)).prevContent] =
        streamContents3 (newContinuationState (closeSegmentState "" st)) from rfl]
      have h1c : (newContinuationState (closeSegmentState "" st)).contents =
          (segs ++ [lastSeg]) ++ [""] := by rw [contState_contents, hc]
      rw [streamContents3_eq _ (segs ++ [lastSeg]) "" h1c, contState_prev]
    · intro s hs
      rcases List.mem_append.mp hs with h | h
      · exact hsegs s h
      · rw [List.mem_singleton.mp h]; exact hsplit
    · rw [String.length_append, hprev]
      have hemp : ("" : String).length = 0 := rfl
      omega
    · rw [String.length_append, hprev]
      have hemp : ("" : String).length = 0 := rfl
      have := contLimit_pos
      omega
    · rw [appendEdit_msgs, contState_msgs]
      simp [hm]
    · rw [appendEdit_prev]
      rfl
    · rw [String.length_append, hprev, hsplit]
      have hemp : ("" : String).length = 0 := rfl
      have hmul : (segs ++ [lastSeg]).length = segs.length + 1 := by simp
      rw [hmul]
      have : (segs.length + 1) * contMsgContentLimit =
          segs.length * contMsgContentLimit + contMsgContentLimit := by ring
      omega
  · refine ⟨streamAppendAndEdit "" ready i ⟨String.mk [ch], none⟩ st,
      streamIter_nosplit_of_inv ready i _ st segs lastSeg hc
        (lt_of_le_of_ne hrL hsplit) hprev,
      segs, lastSeg ++ st.prevContent, ?_, hsegs, ?_, ?_, ?_, ?_, ?_⟩
    · rw [appendEdit_contents]
      rw [show st.contents.dropLast ++
        [st.contents.getLast?.getD "" ++ st.prevContent] =
        streamContents3 st from rfl]
      exact streamContents3_eq st segs lastSeg hc
    · rw [String.length_append]
      omega
    · rw [String.length_append, hprev]
      have hlt := lt_of_le_of_ne hrL hsplit
      omega
    · rw [appendEdit_msgs]
      exact hm
    · rw [appendEdit_prev]
      rfl
    · rw [String.length_append, hprev]
      omega

/-- The terminal contentless chunk appends the pending character, performs
the forced final edit of the last message (complete color iff clean stop),
and ends the loop. -/
theorem streamTerminal_step (ready : Nat → Bool) (fr : String) (i : Nat)
    (st : StreamState) (segs : List String) (lastSeg : String)
    (hc : st.contents = segs ++ [lastSeg])
    (hsegs : ∀ s ∈ segs, s.length = contMsgContentLimit)
    (hr1 : 1 ≤ lastSeg.length)
    (hrL : lastSeg.length ≤ contMsgContentLimit)
    (hm : st.msgs.length = segs.length + 1)
    (hprev : st.prevContent.length = 1) :
    ∃ st2, streamRun "" allOk ready [⟨"", some fr⟩] i st = Except.ok st2
      ∧ ∃ segs2 lastSeg2, st2.contents = segs2 ++ [lastSeg2]
        ∧ (∀ s ∈ segs2, s.length = contMsgContentLimit)
        ∧ 1 ≤ lastSeg2.length
        ∧ lastSeg2.length ≤ contMsgContentLimit
        ∧ st2.msgs.length = segs2.length + 1
        ∧ segs2.length * contMsgContentLimit + lastSeg2.length =
            segs.length * contMsgContentLimit + lastSeg.length + 1
        ∧ ∃ d, st2.lastEdit (st2.msgs.getLast?.getD 0) =
            some { description := d,
                   complete := streamIsGoodFinish ⟨"", some fr⟩ } := by
  have hemp : ("" : String).length = 0 := rfl
  by_cases hsplit : lastSeg.length = contMsgContentLimit
  · have hiter := streamIter_splits_of_inv ready i ⟨"", some fr⟩ st segs
      lastSeg hc hsplit hprev
    have h1c : (newContinuationState (closeSegmentState "" st)).contents =
        (segs ++ [lastSeg]) ++ [""] := by rw [contState_contents, hc]
    have h3c : streamContents3 (newContinuationState (closeSegmentState "" st)) =
        (segs ++ [lastSeg]) ++ ["" ++ st.prevContent] := by
      rw [streamContents3_eq _ (segs ++ [lastSeg]) "" h1c, contState_prev]
    have h1m : (newContinuationState (closeSegmentState "" st)).msgs.length =
        (segs ++ [lastSeg]).length + 1 := by
      rw [contState_msgs]
      simp [hm]
    refine ⟨streamAppendAndEdit "" ready i ⟨"", some fr⟩
      (newContinuationState (closeSegmentState "" st)), ?_,
      segs ++ [lastSeg], "" ++ st.prevContent, ?_, ?_, ?_, ?_, ?_, ?_, ?_⟩
    · rw [streamRun_cons_ok "" allOk ready _ _ _ _ _ hiter]
      rfl
    · rw [appendEdit_contents]
      rw [show (newContinuationState (closeSegmentState "" st)).contents.dropLast ++
        [(newContinuationState (closeSegmentState "" st)).contents.getLast?.getD "" ++
          (newContinuationState (closeSegmentState "" st)).prevContent] =
        streamContents3 (newContinuationState (closeSegmentState "" st)) from rfl]
      exact h3c
    · intro s hs
      rcases List.mem_append.mp hs with h | h
      · exact hsegs s h
      · rw [List.mem_singleton.mp h]; exact hsplit
    · rw [String.length_append, hprev]
      omega
    · rw [String.length_append, hprev]
      have := contLimit_pos
      omega
    · rw [appendEdit_msgs]
      exact h1m
    · rw [String.length_append, hprev, hsplit]
      have hmul2 : (segs ++ [lastSeg]).length = segs.length + 1 := by simp
      rw [hmul2]
      have : (segs.length + 1) * contMsgContentLimit =
          segs.length * contMsgContentLimit + contMsgContentLimit := by ring
      omega
    · have hmne : (newContinuationState (closeSegmentState "" st)).msgs.isEmpty =
          false :=
        msgs_isEmpty_false _ ((segs ++ [lastSeg]).length) h1m
      obtain ⟨d, hd⟩ := appendEdit_lastEdit_final "" ready i ⟨"", some fr⟩
        (newContinuationState (closeSegmentState "" st)) rfl hmne
      have hsF : streamMsgSplitIncoming "" ⟨"", some fr⟩
          (streamContents3 (newContinuationState (closeSegmentState "" st))) =
          false := by
        apply msgSplit_false_of_short _ _ (segs ++ [lastSeg])
          ("" ++ st.prevContent) h3c rfl
        rw [String.length_append, hprev]
        have := contLimit_pos
        omega
      rw [hsF, Bool.false_or] at hd
      refine ⟨d, ?_⟩
      rw [appendEdit_msgs]
      exact hd
  · have hrlt := lt_of_le_of_ne hrL hsplit
    have hiter := streamIter_nosplit_of_inv ready i ⟨"", some fr⟩ st segs
      lastSeg hc hrlt hprev
    have h3c : streamContents3 st = segs ++ [lastSeg ++ st.prevContent] :=
      streamContents3_eq st segs lastSeg hc
    refine ⟨streamAppendAndEdit "" ready i ⟨"", some fr⟩ st, ?_,
      segs, lastSeg ++ st.prevContent, ?_, hsegs, ?_, ?_, ?_, ?_, ?_⟩
    · rw [streamRun_cons_ok "" allOk ready _ _ _ _ _ hiter]
      rfl
    · rw [appendEdit_contents]
      rw [show st.contents.dropLast ++
        [st.contents.getLast?.getD "" ++ st.prevContent] =
        streamContents3 st from rfl]
      exact h3c
    · rw [String.length_append]
      omega
    · rw [String.length_append, hprev]
      omega
    · rw [appendEdit_msgs]
      exact hm
    · rw [String.length_append, hprev]
      omega
    · have hmne : st.msgs.isEmpty = false :=
        msgs_isEmpty_false _ segs.length hm
      obtain ⟨d, hd⟩ := appendEdit_lastEdit_final "" ready i ⟨"", some fr⟩
        st rfl hmne
      have hsF : streamMsgSplitIncoming "" ⟨"", some fr⟩
          (streamContents3 st) = false := by
        apply msgSplit_false_of_short _ _ segs (lastSeg ++ st.prevContent)
          h3c rfl
        rw [String.length_append, hprev]
        omega
      rw [hsF, Bool.false_or] at hd
      refine ⟨d, ?_⟩
      rw [appendEdit_msgs]
      exact hd

/-- Single-character filling invariant: starting from a state whose
segments are exactly full except a partially filled last one, feeding the
remaining single-character chunks plus a contentless terminal chunk ends
the loop with ⌈total/limit⌉ segments, all within the limit, one message
per segment, and a final forced edit of the last message whose color is
complete iff the finish reason is a clean stop. -/
theorem streamRun_singles (ready : Nat → Bool) (fr : String) :
    ∀ (cs : List Char) (i : Nat) (st : StreamState) (segs : List String)
      (lastSeg : String),
      st.contents = segs ++ [lastSeg] →
      (∀ s ∈ segs, s.length = contMsgContentLimit) →
      1 ≤ lastSeg.length →
      lastSeg.length ≤ contMsgContentLimit →
      st.msgs.length = segs.length + 1 →
      st.prevContent.length = 1 →
      ∃ st2,
        streamRun "" allOk ready
            (cs.map (fun ch => ⟨String.mk [ch], none⟩) ++ [⟨"", some fr⟩])
            i st = Except.ok st2
        ∧ st2.contents.length =
            (segs.length * contMsgContentLimit + lastSeg.length + 1 +
              cs.length + contMsgContentLimit - 1) / contMsgContentLimit
        ∧ (∀ s ∈ st2.contents, s.length ≤ contMsgContentLimit)
        ∧ st2.msgs.length = st2.contents.length
        ∧ ∃ d, st2.lastEdit (st2.msgs.getLast?.getD 0) =
            some { description := d,
                   complete := streamIsGoodFinish ⟨"", some fr⟩ } := by
  intro cs
  induction cs with
  | nil =>
    intro i st segs lastSeg hc hsegs hr1 hrL hm hprev
    simp only [List.map_nil, List.nil_append, List.length_nil]
    obtain ⟨st2, hrun, segs2, lastSeg2, hc2, hsegs2, h1b, h2b, hm2, htot,
      hedit⟩ := streamTerminal_step ready fr i st segs lastSeg hc hsegs hr1
        hrL hm hprev
    refine ⟨st2, hrun, ?_, ?_, ?_, hedit⟩
    · rw [hc2]
      have hlen2 : (segs2 ++ [lastSeg2]).length = segs2.length + 1 := by simp
      rw [hlen2]
      have hnum : segs.length * contMsgContentLimit + lastSeg.length + 1 + 0 +
          contMsgContentLimit - 1 =
          segs2.length * contMsgContentLimit + lastSeg2.length +
            contMsgContentLimit - 1 := by omega
      rw [hnum,
        ceil_div_formula segs2.length lastSeg2.length contMsgContentLimit
          contLimit_pos h1b h2b]
    · intro s hs
      rw [hc2] at hs
      rcases List.mem_append.mp hs with h | h
      · rw [hsegs2 s h]
      · rw [List.mem_singleton.mp h]
        exact h2b
    · rw [hc2, hm2]
      simp
  | cons ch cs2 ih =>
    intro i st segs lastSeg hc hsegs hr1 hrL hm hprev
    simp only [List.map_cons, List.cons_append]
    obtain ⟨stm, hiter, segs2, lastSeg2, hc2, hsegs2, h1b, h2b, hm2, hp2,
      htot⟩ := streamChar_step ready i ch st segs lastSeg hc hsegs hr1 hrL
        hm hprev
    obtain ⟨st2, hrun2, hlen2, hb2, hmm2, hd2⟩ := ih (i + 1) stm segs2
      lastSeg2 hc2 hsegs2 h1b h2b hm2 hp2
    refine ⟨st2, ?_, ?_, hb2, hmm2, hd2⟩
    · rw [streamRun_cons_ok "" allOk ready _ _ _ _ _ hiter]
      exact hrun2
    · rw [hlen2]
      have hnum : segs2.length * contMsgContentLimit + lastSeg2.length + 1 +
          cs2.length + contMsgContentLimit - 1 =
          segs.length * contMsgContentLimit + lastSeg.length + 1 +
            (ch :: cs2).length + contMsgContentLimit - 1 := by
        simp only [List.length_cons]
        omega
      rw [hnum]

theorem string_mk_singleton_ne_empty (c : Char) : String.mk [c] ≠ "" := by
  intro h
  have h2 := congrArg String.length h
  rw [string_mk_length] at h2
  simp at h2

/-- C4 (amended: single-character content chunks, terminal contentless
finish chunk, no searched-for prefix).  When the stream delivers its
content one character per chunk and closes with a contentless chunk
carrying the finish reason, and the total content length is exactly
`K ≥ 1` times the segment limit, rich mode produces exactly `K` segments,
each within the segment limit, one emitted message per segment, and the
last message's final rendered color is complete iff the finish reason is
a clean stop (`stop`/`end_turn`, case-insensitively). -/
theorem streamSegmentation_exact (K : Nat) (chars : List Char) (fr : String)
    (ready : Nat → Bool) (hK : 1 ≤ K)
    (hlen : chars.length = K * contMsgContentLimit) :
    ((handleStreamingResponse "" allOk ready
        (chars.map (fun ch => ⟨String.mk [ch], none⟩) ++ [⟨"", some fr⟩])
        false).contents.length = K)
    ∧ (∀ s ∈ (handleStreamingResponse "" allOk ready
        (chars.map (fun ch => ⟨String.mk [ch], none⟩) ++ [⟨"", some fr⟩])
        false).contents, s.length ≤ contMsgContentLimit)
    ∧ (((handleStreamingResponse "" allOk ready
        (chars.map (fun ch => ⟨String.mk [ch], none⟩) ++ [⟨"", some fr⟩])
        false).lastEdit
          ((handleStreamingResponse "" allOk ready
            (chars.map (fun ch => ⟨String.mk [ch], none⟩) ++ [⟨"", some fr⟩])
            false).msgs.getLast?.getD 0)).map StreamEdit.complete =
      some (decide (pyLower fr = "stop") ||
        decide (pyLower fr = "end_turn"))) := by
  have hL2 : 2 ≤ contMsgContentLimit := by decide
  have hlen2 : 2 ≤ chars.length := by
    rw [hlen]
    calc 2 ≤ contMsgContentLimit := hL2
    _ ≤ K * contMsgContentLimit := Nat.le_mul_of_pos_left _ hK
  match chars, hlen, hlen2 with
  | [], hlen, hlen2 => simp at hlen2
  | [c1], hlen, hlen2 => simp at hlen2
  | c1 :: c2 :: rest, hlen, hlen2 =>
  simp only [List.map_cons, List.cons_append]
  have h0 : streamIter "" allOk ready 0 ⟨String.mk [c1], none⟩
      initStreamState =
      Except.ok { initStreamState with prevContent := String.mk [c1] } :=
    streamIter_skip _ _ _ _ _ _ rfl rfl
  set S1 : StreamState := { initStreamState with prevContent := String.mk [c1] }
    with hS1def
  have hS1ne : S1.prevContent ≠ "" := string_mk_singleton_ne_empty c1
  have h1 : streamIter "" allOk ready 1 ⟨String.mk [c2], none⟩ S1 =
      Except.ok (streamAppendAndEdit "" ready 1 ⟨String.mk [c2], none⟩
        (firstMessageState "" S1)) :=
    streamIter_first _ _ _ _ _ _ rfl hS1ne rfl
  set SA := streamAppendAndEdit "" ready 1 ⟨String.mk [c2], none⟩
    (firstMessageState "" S1) with hSAdef
  have hSAc : SA.contents = [] ++ ["" ++ String.mk [c1]] := by
    rw [hSAdef, appendEdit_contents]
    rw [show (firstMessageState "" S1).contents.dropLast ++
      [(firstMessageState "" S1).contents.getLast?.getD "" ++
        (firstMessageState "" S1).prevContent] =
      streamContents3 (firstMessageState "" S1) from rfl]
    rw [streamContents3_eq (firstMessageState "" S1) [] "" rfl]
    rfl
  have hSAm : SA.msgs.length = ([] : List String).length + 1 := by
    rw [hSAdef, appendEdit_msgs]
    rfl
  have hSAp : SA.prevContent.length = 1 := by
    rw [hSAdef, appendEdit_prev]
    rfl
  have hone : ("" ++ String.mk [c1]).length = 1 := by
    rw [String.length_append]
    rfl
  obtain ⟨st2, hrun, hlen3, hb, hmz, d, hd⟩ :=
    streamRun_singles ready fr rest 2 SA [] ("" ++ String.mk [c1]) hSAc
      (by intro s hs; simp at hs)
      (by rw [hone])
      (by rw [hone]; have := contLimit_pos; omega)
      hSAm hSAp
  have e1 : streamRun "" allOk ready
      (⟨String.mk [c1], none⟩ :: ⟨String.mk [c2], none⟩ ::
        (rest.map (fun ch => ⟨String.mk [ch], none⟩) ++ [⟨"", some fr⟩]))
      0 initStreamState =
      streamRun "" allOk ready
        (⟨String.mk [c2], none⟩ ::
          (rest.map (fun ch => ⟨String.mk [ch], none⟩) ++ [⟨"", some fr⟩]))
        1 S1 :=
    streamRun_cons_ok _ _ _ _ _ _ _ _ h0
  have e2 : streamRun "" allOk ready
      (⟨String.mk [c2], none⟩ ::
        (rest.map (fun ch => ⟨String.mk [ch], none⟩) ++ [⟨"", some fr⟩]))
      1 S1 =
      streamRun "" allOk ready
        (rest.map (fun ch => ⟨String.mk [ch], none⟩) ++ [⟨"", some fr⟩])
        2 SA :=
    streamRun_cons_ok _ _ _ _ _ _ _ _ h1
  have hfull := (e1.trans e2).trans hrun
  have hres : handleStreamingResponse "" allOk ready
      (⟨String.mk [c1], none⟩ :: ⟨String.mk [c2], none⟩ ::
        (rest.map (fun ch => ⟨String.mk [ch], none⟩) ++ [⟨"", some fr⟩]))
      false =
      { ok := true, msgs := st2.msgs, contents := st2.contents,
        nodes := finalizeNodes st2.msgs st2.contents st2.nodes,
        lastEdit := st2.lastEdit } := by
    unfold handleStreamingResponse
    rw [hfull]
    rfl
  rw [hres]
  have hrest : rest.length + 2 = K * contMsgContentLimit := by
    simp only [List.length_cons] at hlen
    omega
  have hKL : (K - 1) * contMsgContentLimit + contMsgContentLimit =
      K * contMsgContentLimit := by
    cases K with
    | zero => omega
    | succ k =>
      have hk : k + 1 - 1 = k := rfl
      rw [hk]
      ring
  refine ⟨?_, ?_, ?_⟩
  · rw [hlen3]
    have hnum : ([] : List String).length * contMsgContentLimit +
        ("" ++ String.mk [c1]).length + 1 + rest.length +
        contMsgContentLimit - 1 =
        (K - 1) * contMsgContentLimit + contMsgContentLimit +
          contMsgContentLimit - 1 := by
      rw [hone]
      simp only [List.length_nil, Nat.zero_mul]
      omega
    rw [hnum, ceil_div_formula (K - 1) contMsgContentLimit
      contMsgContentLimit contLimit_pos contLimit_pos (le_refl _)]
    omega
  · exact hb
  · show Option.map StreamEdit.complete
        (st2.lastEdit (st2.msgs.getLast?.getD 0)) =
      some (decide (pyLower fr = "stop") || decide (pyLower fr = "end_turn"))
    rw [hd]
    rfl

set_option maxRecDepth 8192 in
/-- Closed witness for the amended C4: 4094 one-character chunks (the
segment limit exactly, `K = 1`) with a clean `stop` finish produce one
segment within the limit, whose final rendered color is complete. -/
theorem streamSegmentation_exact_witness :
    ((handleStreamingResponse "" allOk neverReady
        ((List.replicate 4094 'a').map (fun ch => ⟨String.mk [ch], none⟩) ++
          [⟨"", some "stop"⟩]) false).contents.length = 1)
    ∧ (((handleStreamingResponse "" allOk neverReady
        ((List.replicate 4094 'a').map (fun ch => ⟨String.mk [ch], none⟩) ++
          [⟨"", some "stop"⟩]) false).lastEdit
          ((handleStreamingResponse "" allOk neverReady
            ((List.replicate 4094 'a').map (fun ch => ⟨String.mk [ch], none⟩) ++
              [⟨"", some "stop"⟩]) false).msgs.getLast?.getD 0)).map
        StreamEdit.complete = some true) := by
  have h := streamSegmentation_exact 1 (List.replicate 4094 'a') "stop"
    neverReady (by decide)
    (by rw [List.length_replicate]; rfl)
  refine ⟨h.1, ?_⟩
  have h3 := h.2.2
  rw [h3]
  rfl

end Llmcord
